import Mathlib

/-!
Verification development for the cranbrook-catering-api menu extraction engine.

The Rust sources (`src/lib.rs`, `src/main.rs`) are shallowly embedded below:
pure Rust functions become Lean functions over `List Char` / `String` / `ℤ`,
`chrono::NaiveDate` is modelled in two faithful ways matching its two uses:
  * as a calendar triple (year, month, day) for formatting/parsing and
    day-offset arithmetic inside the menu parser, and
  * as an integer day number for the week resolver, which interacts with
    dates only through order, subtraction (whole-day differences) and adding
    multiples of days — operations on which `NaiveDate` is isomorphic to ℤ.
`HashMap<String, String>` is modelled as an association list with unique keys,
insertion overwriting the value on key collision (iteration order of the Rust
map is unspecified, so nothing proved below depends on the list order beyond
what insertion order determines).
Unicode-aware Rust char predicates (`is_whitespace`, `is_alphanumeric`,
`to_lowercase`) are modelled by Lean's ASCII `Char` operations; every input
exercised by the claims is ASCII.
-/

namespace Cranbrook

/-! ### Character and string helpers -/

/-- Model of Rust `str::trim`: drop whitespace from both ends. -/
def trimChars (l : List Char) : List Char :=
  ((l.dropWhile Char.isWhitespace).reverse.dropWhile Char.isWhitespace).reverse

def rustTrim (s : String) : String := ⟨trimChars s.data⟩

/-- Model of Rust `str::to_lowercase`. -/
def lowerStr (s : String) : String := ⟨s.data.map Char.toLower⟩

/-- Model of Rust `str::starts_with(' ')`. -/
def startsWithSpace (s : String) : Bool := s.data.head? == some ' '

/-- Does `p` occur at the head of `s`? (Model of slice-prefix testing.) -/
def leadsWith : List Char → List Char → Bool
  | [], _ => true
  | _ :: _, [] => false
  | p :: ps, c :: cs => p == c && leadsWith ps cs

/-- Model of Rust `str::contains` for a nonempty needle. -/
def hasSub : List Char → List Char → Bool
  | [], pat => pat == []
  | s@(_ :: rest), pat => leadsWith pat s || hasSub rest pat

/-- Worker for `countMatches`: the counter `k` says how many further
characters lie inside the match found last, and are skipped without being
tested (this realises the non-overlapping scan structurally). -/
def countMatchesAux (pat : List Char) : List Char → ℕ → ℕ
  | [], _ => 0
  | _ :: rest, k + 1 => countMatchesAux pat rest k
  | c :: rest, 0 =>
    if pat ≠ [] ∧ leadsWith pat (c :: rest) = true then
      1 + countMatchesAux pat rest (pat.length - 1)
    else
      countMatchesAux pat rest 0

/-- Model of Rust `str::matches(pat).count()`: number of non-overlapping
leftmost occurrences of `pat`. -/
def countMatches (pat s : List Char) : ℕ := countMatchesAux pat s 0

/-! ### Decimal digits: Rust `format!` padding and integer `FromStr` -/

/-- The ASCII character of one decimal digit. -/
def digitChar : ℕ → Char
  | 0 => '0' | 1 => '1' | 2 => '2' | 3 => '3' | 4 => '4'
  | 5 => '5' | 6 => '6' | 7 => '7' | 8 => '8' | 9 => '9'
  | _ => '*'

/-- Fuel-indexed worker for `natDigits` (structural recursion on the fuel so
that concrete renderings reduce by evaluation; `natDigits` always supplies
enough fuel). -/
def natDigitsF : ℕ → ℕ → List Char
  | 0, _ => []
  | fuel + 1, n =>
    if n < 10 then [digitChar n]
    else natDigitsF fuel (n / 10) ++ [digitChar (n % 10)]

/-- Decimal digits of a natural number, most significant first. -/
def natDigits (n : ℕ) : List Char := natDigitsF (n + 1) n

/-- Left-pad with `'0'` to width `w` (Rust `{:0w}` on a nonnegative value). -/
def padZeros (w : ℕ) (s : List Char) : List Char :=
  List.replicate (w - s.length) '0' ++ s

def fmtNat (w n : ℕ) : List Char := padZeros w (natDigits n)

/-- Rust `{:0w}` formatting of a signed integer: the zero padding is inserted
between the sign and the digits, the sign counting toward the width. -/
def fmtInt (w : ℕ) (z : ℤ) : List Char :=
  if z < 0 then '-' :: padZeros (w - 1) (natDigits z.natAbs)
  else padZeros w (natDigits z.toNat)

def charDigit? (c : Char) : Option ℕ :=
  if '0' ≤ c ∧ c ≤ '9' then some (c.toNat - 48) else none

def parseDigitsAux : ℕ → List Char → Option ℕ
  | acc, [] => some acc
  | acc, c :: cs =>
    match charDigit? c with
    | some d => parseDigitsAux (acc * 10 + d) cs
    | none => none

/-- Parse a nonempty all-digit string. -/
def parseNatRaw (s : List Char) : Option ℕ :=
  if s = [] then none else parseDigitsAux 0 s

/-- Model of Rust `str::parse::<u32>()`: optional `'+'`, digits, range check. -/
def parseU32 (s : List Char) : Option ℕ :=
  let body := if s.head? = some '+' then s.tail else s
  (parseNatRaw body).bind fun n => if n ≤ 4294967295 then some n else none

/-- Model of Rust `str::parse::<i32>()`: optional sign, digits, range check. -/
def parseI32 (s : List Char) : Option ℤ :=
  if s.head? = some '+' then
    (parseNatRaw s.tail).bind fun n => if n ≤ 2147483647 then some (n : ℤ) else none
  else if s.head? = some '-' then
    (parseNatRaw s.tail).bind fun n => if n ≤ 2147483648 then some (-(n : ℤ)) else none
  else
    (parseNatRaw s).bind fun n => if n ≤ 2147483647 then some (n : ℤ) else none

/-! ### Calendar dates (model of `chrono::NaiveDate`) -/

/-- Proleptic-Gregorian leap year, as computed by chrono. -/
def isLeapYear (y : ℤ) : Bool :=
  (y % 4 == 0 && y % 100 != 0) || y % 400 == 0

def daysInMonth (y : ℤ) : ℕ → ℕ
  | 1 => 31
  | 2 => if isLeapYear y then 29 else 28
  | 3 => 31
  | 4 => 30
  | 5 => 31
  | 6 => 30
  | 7 => 31
  | 8 => 31
  | 9 => 30
  | 10 => 31
  | 11 => 30
  | 12 => 31
  | _ => 0

structure NaiveDate where
  year : ℤ
  month : ℕ
  day : ℕ
deriving DecidableEq

/-- Validity as checked by `chrono::NaiveDate::from_ymd_opt`; chrono's year
range is `i32::MIN >> 13 ..= i32::MAX >> 13`. -/
abbrev ValidYmd (y : ℤ) (m d : ℕ) : Prop :=
  -262144 ≤ y ∧ y ≤ 262143 ∧ 1 ≤ m ∧ m ≤ 12 ∧ 1 ≤ d ∧ d ≤ daysInMonth y m

def from_ymd_opt (y : ℤ) (m d : ℕ) : Option NaiveDate :=
  if ValidYmd y m d then some ⟨y, m, d⟩ else none

/-- Calendar successor (the semantics of adding `Duration::days(1)`). -/
def nextDate (dt : NaiveDate) : NaiveDate :=
  if dt.day < daysInMonth dt.year dt.month then ⟨dt.year, dt.month, dt.day + 1⟩
  else if dt.month < 12 then ⟨dt.year, dt.month + 1, 1⟩
  else ⟨dt.year + 1, 1, 1⟩

/-- `date + chrono::Duration::days(n)` for a nonnegative day count. -/
def addDays (dt : NaiveDate) : ℕ → NaiveDate
  | 0 => dt
  | n + 1 => nextDate (addDays dt n)

/-- Model of `format_date` in `src/lib.rs` / `src/main.rs`:
`format!("{:04}-{:02}-{:02}", year, month, day)`. -/
def format_date (dt : NaiveDate) : String :=
  ⟨fmtInt 4 dt.year ++ '-' :: fmtNat 2 dt.month ++ '-' :: fmtNat 2 dt.day⟩

/-! ### String splitting (Rust `str::split` / `str::lines`) -/

/-- Model of Rust `str::split(p)`: split at every separator, keeping empty
segments (including a leading/trailing one). -/
def splitChars (p : Char → Bool) : List Char → List (List Char)
  | [] => [[]]
  | c :: cs =>
    if p c then [] :: splitChars p cs
    else
      match splitChars p cs with
      | [] => [[c]]
      | g :: gs => (c :: g) :: gs

def dateSep (c : Char) : Bool := c == '-' || c == '/'

/-- Model of `parse_date_param` in `src/lib.rs` / `src/main.rs`. -/
def parse_date_param (input : String) : Option NaiveDate :=
  let parts := (splitChars dateSep input.data).filter (fun p => !p.isEmpty)
  match parts with
  | [ys, ms, ds] =>
    (parseI32 ys).bind fun y =>
    (parseU32 ms).bind fun m =>
    (parseU32 ds).bind fun d =>
    from_ymd_opt y m d
  | _ => none

def stripCR (g : List Char) : List Char :=
  if g.getLast? = some '\r' then g.dropLast else g

/-- Model of Rust `str::lines()`: split at `'\n'`, dropping one final empty
segment produced by a trailing newline, and stripping a trailing `'\r'`. -/
def rustLines (s : String) : List String :=
  if s.data = [] then []
  else
    let segs := splitChars (fun c => c == '\n') s.data
    let segs := if s.data.getLast? = some '\n' then segs.dropLast else segs
    segs.map (fun g => ⟨stripCR g⟩)

/-! ### Line classifier -/

/-- Model of `is_junk_line` in `src/lib.rs` (the library version, which also
filters common filler text). Arguments as in the Rust signature: the already
trimmed line and its lowercased form. -/
def is_junk_line (trimmed lower : String) : Bool :=
  if trimmed.data = [] then true
  else if trimmed.data.all (fun c => !c.isAlphanum) then true
  else if trimmed.data = ['"'] then true
  else if hasSub lower.data ("cranbrook".data) || hasSub lower.data ("menu".data)
       || hasSub lower.data ("week commencing".data) then true
  else false

namespace MainBin

/-- Model of `is_junk_line` in `src/main.rs` (no filler-text clauses; the
`lower` argument is taken but, as in the Rust, unused). -/
def is_junk_line (trimmed _lower : String) : Bool :=
  if trimmed.data = [] then true
  else if trimmed.data.all (fun c => !c.isAlphanum) then true
  else if trimmed.data = ['"'] then true
  else false

end MainBin

/-- Junk test as applied by every call site: on the trimmed line and the
lowercased trimmed line. -/
def junkLine (raw : String) : Bool :=
  is_junk_line (rustTrim raw) (lowerStr (rustTrim raw))

/-! ### The menu index (model of `HashMap<String, String>`) -/

abbrev MenuMap := List (String × String)

/-- `HashMap::insert`: overwrite the value if the key is present, otherwise
add the binding. -/
def mapInsert (m : MenuMap) (k v : String) : MenuMap :=
  if m.any (fun p => p.1 == k) then m.map (fun p => if p.1 == k then (k, v) else p)
  else m ++ [(k, v)]

/-- `HashMap::get`. -/
def mapGet (m : MenuMap) (k : String) : Option String :=
  (m.find? (fun p => p.1 == k)).map Prod.snd

def mapKeys (m : MenuMap) : List String := m.map Prod.fst

/-! ### Day-block splitter (`split_blocks` in `src/lib.rs`) -/

/-- Push a line onto the last block (Rust `blocks.last_mut().unwrap().push`). -/
def pushLast (blocks : List (List String)) (s : String) : List (List String) :=
  match blocks with
  | [] => [[s]]
  | [b] => [b ++ [s]]
  | b :: rest => b :: pushLast rest s

/-- One iteration of the `split_blocks` loop. -/
def splitStep (expected : ℕ) (blocks : List (List String)) (raw : String) : List (List String) :=
  let trimmed := rustTrim raw
  let lower := lowerStr trimmed
  if is_junk_line trimmed lower then blocks
  else
    let blocks :=
      if startsWithSpace raw = true ∧ blocks ≠ [] ∧ blocks.length < expected then
        blocks ++ [[]]
      else blocks
    let blocks := if blocks = [] then [[]] else blocks
    pushLast blocks trimmed

/-- Model of `split_blocks` in `src/lib.rs`. -/
def split_blocks (lines : List String) (expected_blocks : ℕ) : List (List String) :=
  lines.foldl (splitStep expected_blocks) []

/-! ### Positional fallback (`fill_first_line_per_day` in `src/lib.rs`) -/

/-- One iteration of the `fill_first_line_per_day` loop: state is the output
map together with the `found` vector. -/
def fillStep (week_start : NaiveDate) (period : String)
    (acc : MenuMap × List Bool) (raw : String) : MenuMap × List Bool :=
  let trimmed := rustTrim raw
  let lower := lowerStr trimmed
  if is_junk_line trimmed lower then acc
  else
    match acc.2.findIdx? (fun b => !b) with
    | some day =>
      (mapInsert acc.1 (format_date (addDays week_start day) ++ "-" ++ period) trimmed,
       acc.2.set day true)
    | none => acc

/-- Model of `fill_first_line_per_day` in `src/lib.rs`. -/
def fill_first_line_per_day (lines : List String) (week_start : NaiveDate)
    (days : ℕ) (period : String) (out : MenuMap) : MenuMap :=
  (lines.foldl (fillStep week_start period) (out, List.replicate days false)).1

/-! ### Section segmenter (the per-line loop of `parse_weekly_menu`) -/

structure ParseState where
  in_breakfast : Bool
  in_brunch_sat : Bool
  in_brunch_sun : Bool
  in_lunch : Bool
  in_dinner : Bool
  breakfast_found : List Bool
  brunch_sat_found : Bool
  brunch_sun_found : Bool
  lunch_lines : List String
  dinner_lines : List String
  out : MenuMap
deriving DecidableEq

def initState : ParseState :=
  ⟨false, false, false, false, false, List.replicate 5 false, false, false, [], [], []⟩

/-- The lunch/dinner buffering of the `parse_weekly_menu` loop body. -/
def bufferPush (st : ParseState) (line : String) : ParseState :=
  if st.in_lunch then { st with lunch_lines := st.lunch_lines ++ [line] }
  else if st.in_dinner then { st with dinner_lines := st.dinner_lines ++ [line] }
  else st

/-- The non-header part of the `parse_weekly_menu` loop body: buffer the line
for lunch/dinner, drop junk, and do the inline breakfast/brunch extraction. -/
def segContent (week_start : NaiveDate) (st : ParseState) (line : String) : ParseState :=
  let trimmed := rustTrim line
  let lower := lowerStr trimmed
  let st := bufferPush st line
  if is_junk_line trimmed lower then st
  else if st.in_breakfast then
    if trimmed.data ≠ [] then
      match st.breakfast_found.findIdx? (fun b => !b) with
      | some day =>
        { st with
          out := mapInsert st.out (format_date (addDays week_start day) ++ "-breakfast") trimmed,
          breakfast_found := st.breakfast_found.set day true }
      | none => st
    else st
  else if st.in_brunch_sat = true ∧ st.brunch_sat_found = false then
    { st with
      out := mapInsert st.out (format_date (addDays week_start 5) ++ "-brunch")
               "Brunch buffet available",
      brunch_sat_found := true }
  else if st.in_brunch_sun = true ∧ st.brunch_sun_found = false then
    { st with
      out := mapInsert st.out (format_date (addDays week_start 6) ++ "-brunch")
               "Brunch buffet available",
      brunch_sun_found := true }
  else st

/-- One iteration of the line loop of `parse_weekly_menu` in `src/lib.rs`:
the header transition rules in their priority order, else the content path. -/
def segStep (week_start : NaiveDate) (st : ParseState) (line : String) : ParseState :=
  let lower := lowerStr (rustTrim line)
  let breakfast_count := countMatches ("breakfast".data) lower.data
  let brunch_count := countMatches ("brunch".data) lower.data
  let lunch_count := countMatches ("lunch".data) lower.data
  let dinner_count := countMatches ("dinner".data) lower.data
  if 3 ≤ breakfast_count then
    { st with in_breakfast := true, in_brunch_sat := false, in_brunch_sun := false,
              in_lunch := false, in_dinner := false }
  else if 1 ≤ brunch_count ∧ st.in_brunch_sat = false then
    { st with in_breakfast := false, in_brunch_sat := true, in_brunch_sun := false,
              in_lunch := false, in_dinner := false }
  else if 1 ≤ brunch_count ∧ st.in_brunch_sat = true then
    { st with in_brunch_sat := false, in_brunch_sun := true }
  else if 3 ≤ lunch_count then
    { st with in_breakfast := false, in_brunch_sat := false, in_brunch_sun := false,
              in_lunch := true, in_dinner := false }
  else if 3 ≤ dinner_count then
    { st with in_breakfast := false, in_brunch_sat := false, in_brunch_sun := false,
              in_lunch := false, in_dinner := true }
  else
    segContent week_start st line

/-- The `for day in 0..days` insertion loop of the trusted block path in
`parse_weekly_menu`. -/
def blockKeysFold (week_start : NaiveDate) (period : String)
    (blocks : List (List String)) (days : ℕ) (out : MenuMap) : MenuMap :=
  (List.range days).foldl
    (fun o day =>
      match blocks[day]? with
      | some block =>
        mapInsert o (format_date (addDays week_start day) ++ "-" ++ period)
          (String.intercalate "\n" block)
      | none => o)
    out

/-- Model of `parse_weekly_menu` in `src/lib.rs`. -/
def parse_weekly_menu (text : String) (week_start : NaiveDate) : MenuMap :=
  let lines := rustLines text
  let st := lines.foldl (segStep week_start) initState
  let out := st.out
  let lunch_blocks := split_blocks st.lunch_lines 5
  let out :=
    if lunch_blocks.length = 5 then blockKeysFold week_start "lunch" lunch_blocks 5 out
    else fill_first_line_per_day st.lunch_lines week_start 5 "lunch" out
  let dinner_blocks := split_blocks st.dinner_lines 7
  let out :=
    if dinner_blocks.length = 7 then blockKeysFold week_start "dinner" dinner_blocks 7 out
    else fill_first_line_per_day st.dinner_lines week_start 7 "dinner" out
  out

/-! ### Week resolver (`choose_inferred_week_start` in `src/lib.rs`)

`chrono::NaiveDate` is modelled here as an integer day number: the resolver
uses dates only through `≤`, whole-day subtraction, and adding day counts,
and on those operations `NaiveDate` is isomorphic to `ℤ`. -/

/-- Model of `Iterator::min_by_key`: the first element attaining the minimal
key, or `none` on an empty list. -/
def minByKey {α : Type} (f : α → ℤ) : List α → Option α
  | [] => none
  | x :: xs =>
    match minByKey f xs with
    | none => some x
    | some y => if f x ≤ f y then some x else some y

/-- Model of `choose_inferred_week_start` in `src/lib.rs`. -/
def choose_inferred_week_start (week_starts : List ℤ) (requested_date today : ℤ) : Option ℤ :=
  if week_starts = [] then none
  else
    match week_starts.find? (fun w => decide (w ≤ requested_date ∧ requested_date ≤ w + 6)) with
    | some w => some w
    | none =>
      match minByKey (fun c => |today - c|) week_starts with
      | none => none
      | some today_week =>
        let delta_weeks := Int.ediv (requested_date - today) 7
        let inferred_target := today_week + delta_weeks * 7
        minByKey (fun c => |inferred_target - c|) week_starts

/-! ### Claim-side definitions

These definitions translate the vocabulary in which the spec's claims are
phrased (not the implementation); they exist to be compared against the
implementation definitions above. -/

/-- The lowercased trimmed form of a line, as every `is_junk_line` call site
computes it. -/
def lowTrim (l : String) : List Char := (lowerStr (rustTrim l)).data

/-- The three junk conditions exactly as the spec's contract states them:
empty after trimming, no alphanumeric character at all, or exactly one
double-quote character. -/
abbrev JunkSpec (line : String) : Prop :=
  trimChars line.data = [] ∨
  (∀ c ∈ trimChars line.data, c.isAlphanum = false) ∨
  trimChars line.data = ['"']

/-- The additional filler-text clauses present in the `src/lib.rs` classifier. -/
abbrev FillerLine (line : String) : Prop :=
  hasSub (lowTrim line) ("cranbrook".data) = true ∨
  hasSub (lowTrim line) ("menu".data) = true ∨
  hasSub (lowTrim line) ("week commencing".data) = true

/-- Leading whitespace in the untrimmed form — the wording of claim C6. -/
def hasLeadingWS (s : String) : Bool :=
  match s.data.head? with
  | some c => c.isWhitespace
  | none => false

/-- The day-block splitter as the claim words it, parameterised by the
new-block test on the untrimmed line: a non-junk line starts a new block iff
the test holds, at least one block exists, and the block count is below
`expected`; otherwise it is appended to the last block, a first block being
created if none exists. -/
def splitBlocksSpec (lead : String → Bool) (expected : ℕ) :
    List (List String) → List String → List (List String)
  | blocks, [] => blocks
  | blocks, raw :: rest =>
    if junkLine raw = true then splitBlocksSpec lead expected blocks rest
    else if lead raw = true ∧ blocks ≠ [] ∧ blocks.length < expected then
      splitBlocksSpec lead expected (blocks ++ [[rustTrim raw]]) rest
    else if h : blocks = [] then
      splitBlocksSpec lead expected [[rustTrim raw]] rest
    else
      splitBlocksSpec lead expected (blocks.dropLast ++ [blocks.getLast h ++ [rustTrim raw]]) rest

/-- The trimmed forms of the non-junk lines, in order — the lines that
`fill_first_line_per_day` assigns positionally. -/
def nonJunkTrimmed (lines : List String) : List String :=
  (lines.filter (fun raw => !junkLine raw)).map rustTrim

/-- `r` is the first element of `l` minimising `f` — the element
`Iterator::min_by_key` returns, with its documented tie-break. -/
def FirstMinBy (f : ℤ → ℤ) (l : List ℤ) (r : ℤ) : Prop :=
  ∃ l1 l2, l = l1 ++ r :: l2 ∧ (∀ w ∈ l, f r ≤ f w) ∧ ∀ w ∈ l1, f r < f w

/-- Case-insensitive substring count on the trimmed line, the quantity the
segmenter's header rules test. -/
def kwCount (kw line : String) : ℕ := countMatches kw.data (lowTrim line)

/-- A pure content line for the end-to-end shape of claim C1: it triggers no
header rule and is not junk. -/
abbrev ContentLine (l : String) : Prop :=
  kwCount "breakfast" l = 0 ∧ kwCount "brunch" l = 0 ∧ kwCount "lunch" l = 0 ∧
  kwCount "dinner" l = 0 ∧ junkLine l = false

abbrev BreakfastHeader (l : String) : Prop := 3 ≤ kwCount "breakfast" l

abbrev BrunchHeader (l : String) : Prop :=
  kwCount "breakfast" l < 3 ∧ 1 ≤ kwCount "brunch" l

abbrev LunchHeader (l : String) : Prop :=
  kwCount "breakfast" l < 3 ∧ kwCount "brunch" l = 0 ∧ 3 ≤ kwCount "lunch" l

abbrev DinnerHeader (l : String) : Prop :=
  kwCount "breakfast" l < 3 ∧ kwCount "brunch" l = 0 ∧ kwCount "lunch" l < 3 ∧
  3 ≤ kwCount "dinner" l

/-- The slash-separated rendering of a date: the ISO rendering with `'/'` in
place of `'-'` (claim C7's second accepted form). -/
def slashDate (dt : NaiveDate) : String :=
  ⟨(format_date dt).data.map (fun c => if c = '-' then '/' else c)⟩

/-- The key-shape invariant of claim C10: a key of the weekly map is a
formatted date inside the week plus a period suffix, with the day offsets
each period can produce. -/
def GoodKey (w : NaiveDate) (k : String) : Prop :=
  ∃ off p, k = format_date (addDays w off) ++ "-" ++ p ∧
    ((p = "breakfast" ∧ off ≤ 4) ∨ (p = "brunch" ∧ (off = 5 ∨ off = 6)) ∨
     (p = "lunch" ∧ off ≤ 4) ∨ (p = "dinner" ∧ off ≤ 6))

/-! ## Theorems -/

/-! ### Association-list map lemmas -/

theorem any_key_eq_mem (m : MenuMap) (k : String) :
    (m.any fun p => p.1 == k) = true ↔ k ∈ mapKeys m := by
  simp [List.any_eq_true, mapKeys, List.mem_map, beq_iff_eq]

theorem mapKeys_overwrite (m : MenuMap) (k v : String) :
    mapKeys (m.map fun p => if p.1 == k then (k, v) else p) = mapKeys m := by
  unfold mapKeys
  induction m with
  | nil => rfl
  | cons p rest ih =>
    simp only [List.map_cons, ih, List.cons.injEq, and_true]
    by_cases hp : p.1 = k
    · simp [hp]
    · simp [hp]

theorem mapKeys_insert (m : MenuMap) (k v : String) :
    mapKeys (mapInsert m k v) =
      if k ∈ mapKeys m then mapKeys m else mapKeys m ++ [k] := by
  unfold mapInsert
  by_cases h : k ∈ mapKeys m
  · rw [if_pos ((any_key_eq_mem m k).2 h), if_pos h, mapKeys_overwrite]
  · rw [if_neg (fun hh => h ((any_key_eq_mem m k).1 hh)), if_neg h]
    unfold mapKeys
    simp

theorem mem_mapKeys_insert {m : MenuMap} {k v x : String}
    (h : x ∈ mapKeys (mapInsert m k v)) : x = k ∨ x ∈ mapKeys m := by
  rw [mapKeys_insert] at h
  by_cases hk : k ∈ mapKeys m
  · rw [if_pos hk] at h
    exact Or.inr h
  · rw [if_neg hk] at h
    rcases List.mem_append.1 h with h1 | h1
    · exact Or.inr h1
    · simp only [List.mem_singleton] at h1
      exact Or.inl h1

theorem mapGet_map_overwrite {k' k : String} (hne : k' ≠ k) (m : MenuMap) (v : String) :
    mapGet (m.map fun p => if p.1 == k' then (k', v) else p) k = mapGet m k := by
  induction m with
  | nil => rfl
  | cons p rest ih =>
    by_cases hp : p.1 = k'
    · unfold mapGet
      rw [List.map_cons, if_pos (by simp [hp])]
      rw [List.find?_cons_of_neg _ (by simp [hne]),
          List.find?_cons_of_neg _ (by simp [hp, hne])]
      exact ih
    · unfold mapGet
      rw [List.map_cons, if_neg (by simp [hp])]
      by_cases hk : p.1 = k
      · rw [List.find?_cons_of_pos _ (by simp [hk]), List.find?_cons_of_pos _ (by simp [hk])]
      · rw [List.find?_cons_of_neg _ (by simp [hk]), List.find?_cons_of_neg _ (by simp [hk])]
        exact ih

theorem mapGet_append_single {k' k : String} (hne : k' ≠ k) (m : MenuMap) (v : String) :
    mapGet (m ++ [(k', v)]) k = mapGet m k := by
  induction m with
  | nil =>
    unfold mapGet
    rw [List.nil_append, List.find?_cons_of_neg _ (by simp [hne])]
  | cons p rest ih =>
    unfold mapGet
    by_cases hk : p.1 = k
    · rw [List.cons_append, List.find?_cons_of_pos _ (by simp [hk]),
          List.find?_cons_of_pos _ (by simp [hk])]
    · rw [List.cons_append, List.find?_cons_of_neg _ (by simp [hk]),
          List.find?_cons_of_neg _ (by simp [hk])]
      exact ih

theorem mapGet_insert_ne {k' k : String} (hne : k' ≠ k) (m : MenuMap) (v : String) :
    mapGet (mapInsert m k' v) k = mapGet m k := by
  unfold mapInsert
  by_cases h : (m.any fun p => p.1 == k') = true
  · rw [if_pos h]
    exact mapGet_map_overwrite hne m v
  · rw [if_neg h]
    exact mapGet_append_single hne m v

theorem mapGet_insert_self (m : MenuMap) (k v : String) :
    mapGet (mapInsert m k v) k = some v := by
  induction m with
  | nil =>
    unfold mapInsert mapGet
    simp
  | cons p rest ih =>
    by_cases hp : p.1 = k
    · unfold mapInsert
      rw [if_pos (by simp [List.any_cons, hp])]
      unfold mapGet
      rw [List.map_cons, if_pos (by simp [hp]), List.find?_cons_of_pos _ (by simp)]
      rfl
    · by_cases hr : (rest.any fun q => q.1 == k) = true
      · unfold mapInsert
        rw [if_pos (by simp [List.any_cons, hr])]
        unfold mapInsert at ih
        rw [if_pos hr] at ih
        unfold mapGet at ih ⊢
        rw [List.map_cons, if_neg (by simp [hp]), List.find?_cons_of_neg _ (by simp [hp])]
        exact ih
      · unfold mapInsert
        rw [if_neg (by
              simp only [List.any_cons, Bool.or_eq_true, beq_iff_eq, hp, false_or]
              exact hr)]
        unfold mapInsert at ih
        rw [if_neg hr] at ih
        unfold mapGet at ih ⊢
        rw [List.cons_append, List.find?_cons_of_neg _ (by simp [hp])]
        exact ih

/-! ### Claim C4 — the junk-line classifier -/

/-- C4 (counterexample): the line `"menu"` fails all three conditions of the
claim — nonempty after trimming, contains alphanumerics, not a lone quote —
yet the `src/lib.rs` classifier reports it as junk (its filler-text clause),
so a line failing all three conditions IS classified as junk. -/
theorem claim_C4_counterexample :
    is_junk_line (rustTrim "menu") (lowerStr (rustTrim "menu")) = true ∧
    ¬ JunkSpec "menu" := by
  constructor
  · decide
  · decide

/-- C4 (amended): the classifier in `src/main.rs` returns true exactly on the
three spec conditions; the classifier in `src/lib.rs` returns true exactly on
those conditions or when the lowercased trimmed line contains `"cranbrook"`,
`"menu"`, or `"week commencing"`. -/
theorem claim_C4 (line : String) :
    (MainBin.is_junk_line (rustTrim line) (lowerStr (rustTrim line)) = true ↔ JunkSpec line) ∧
    (is_junk_line (rustTrim line) (lowerStr (rustTrim line)) = true ↔
      JunkSpec line ∨ FillerLine line) := by
  have hd : (rustTrim line).data = trimChars line.data := rfl
  have hcond2 : ((trimChars line.data).all fun c => !c.isAlphanum) = true ↔
      (∀ c ∈ trimChars line.data, c.isAlphanum = false) := by
    simp [List.all_eq_true]
  constructor
  · simp only [MainBin.is_junk_line, hd]
    split_ifs with h1 h2 h3
    · simp [JunkSpec, h1]
    · simp only [true_iff]
      exact Or.inr (Or.inl (hcond2.1 h2))
    · simp [JunkSpec, h3]
    · simp only [false_iff, JunkSpec, not_or]
      exact ⟨h1, fun hall => h2 (hcond2.2 hall), h3⟩
  · simp only [is_junk_line, hd]
    split_ifs with h1 h2 h3 h4
    · simp [JunkSpec, h1]
    · simp only [true_iff]
      exact Or.inl (Or.inr (Or.inl (hcond2.1 h2)))
    · simp [JunkSpec, h3]
    · simp only [Bool.or_eq_true] at h4
      simp only [true_iff]
      refine Or.inr ?_
      simp only [FillerLine, lowTrim]
      tauto
    · simp only [Bool.or_eq_true] at h4
      simp only [false_iff, not_or]
      refine ⟨⟨h1, fun hall => h2 (hcond2.2 hall), h3⟩, ?_⟩
      simp only [FillerLine, lowTrim]
      tauto

theorem mapKeys_nil : mapKeys [] = [] := rfl

theorem rustTrim_ne_nil_of_not_junk {l : String} (h : junkLine l = false) :
    (rustTrim l).data ≠ [] := by
  intro he
  simp only [junkLine, is_junk_line, he, if_true] at h
  exact absurd h (by simp)

/-! ### Claim C5 — lunch-header transition -/

/-- C5 (counterexample): the line `"brunch lunch lunch lunch lunch lunch"`
contains `"lunch"` exactly 5 times case-insensitively, yet consuming it from
the initial state does NOT transition the segmenter to Lunch — the
brunch rule has priority and moves it to BrunchSat. -/
theorem claim_C5_counterexample :
    kwCount "lunch" "brunch lunch lunch lunch lunch lunch" = 5 ∧
    (segStep ⟨2026, 2, 9⟩ initState "brunch lunch lunch lunch lunch lunch").in_lunch = false ∧
    (segStep ⟨2026, 2, 9⟩ initState "brunch lunch lunch lunch lunch lunch").in_brunch_sat = true := by
  exact ⟨by decide, by decide, by decide⟩

/-- C5 (amended): a line containing `"lunch"` exactly 5 times, fewer than 3
occurrences of `"breakfast"`, and no occurrence of `"brunch"` transitions the
segmenter to Lunch from any state, and contributes nothing to the Lunch
buffer (nor to any other part of the state). -/
theorem claim_C5 (w : NaiveDate) (st : ParseState) (l : String)
    (h5 : kwCount "lunch" l = 5) (hb : kwCount "breakfast" l < 3)
    (hr : kwCount "brunch" l = 0) :
    (segStep w st l).in_lunch = true ∧ (segStep w st l).in_breakfast = false ∧
    (segStep w st l).in_brunch_sat = false ∧ (segStep w st l).in_brunch_sun = false ∧
    (segStep w st l).in_dinner = false ∧
    (segStep w st l).lunch_lines = st.lunch_lines ∧
    (segStep w st l).dinner_lines = st.dinner_lines ∧
    (segStep w st l).out = st.out ∧
    (segStep w st l).breakfast_found = st.breakfast_found := by
  simp only [kwCount, lowTrim] at h5 hb hr
  have e : segStep w st l =
      { st with in_breakfast := false, in_brunch_sat := false, in_brunch_sun := false,
                in_lunch := true, in_dinner := false } := by
    simp only [segStep]
    rw [if_neg (by omega), if_neg (by simp [hr]), if_neg (by simp [hr]), if_pos (by omega)]
  rw [e]
  exact ⟨rfl, rfl, rfl, rfl, rfl, rfl, rfl, rfl, rfl⟩

/-- C5 (witness): a plain lunch-header line satisfies the amended
hypotheses and transitions the initial state to Lunch. -/
theorem claim_C5_witness :
    (kwCount "lunch" "Lunch Lunch Lunch Lunch Lunch" = 5 ∧
     kwCount "breakfast" "Lunch Lunch Lunch Lunch Lunch" < 3 ∧
     kwCount "brunch" "Lunch Lunch Lunch Lunch Lunch" = 0) ∧
    (segStep ⟨2026, 2, 9⟩ initState "Lunch Lunch Lunch Lunch Lunch").in_lunch = true := by
  exact ⟨⟨by decide, by decide, by decide⟩,
    (claim_C5 ⟨2026, 2, 9⟩ initState "Lunch Lunch Lunch Lunch Lunch"
      (by decide) (by decide) (by decide)).1⟩

/-! ### `pushLast` and `splitStep` characterisation -/

theorem pushLast_cons_cons (x y : List String) (rest : List (List String)) (t : String) :
    pushLast (x :: y :: rest) t = x :: pushLast (y :: rest) t := rfl

theorem pushLast_concat (bs : List (List String)) (b : List String) (t : String) :
    pushLast (bs ++ [b]) t = bs ++ [b ++ [t]] := by
  induction bs with
  | nil => rfl
  | cons x xs ih =>
    cases xs with
    | nil => rfl
    | cons y ys =>
      simp only [List.cons_append, pushLast_cons_cons]
      rw [show y :: (ys ++ [b]) = (y :: ys) ++ [b] from rfl, ih]
      simp

theorem pushLast_ne_nil_eq (bs : List (List String)) (h : bs ≠ []) (t : String) :
    pushLast bs t = bs.dropLast ++ [bs.getLast h ++ [t]] := by
  induction bs with
  | nil => exact absurd rfl h
  | cons x xs ih =>
    cases xs with
    | nil => rfl
    | cons y ys =>
      have hys : (y :: ys) ≠ [] := by simp
      rw [pushLast_cons_cons, ih hys]
      have h1 : (x :: y :: ys).dropLast = x :: (y :: ys).dropLast := rfl
      have h2 : (x :: y :: ys).getLast h = (y :: ys).getLast hys := List.getLast_cons hys
      rw [h1, h2, List.cons_append]

theorem splitStep_junk {raw : String} (e : ℕ) (blocks : List (List String))
    (hj : junkLine raw = true) : splitStep e blocks raw = blocks := by
  simp only [junkLine] at hj
  simp only [splitStep, hj, if_true]

theorem splitStep_new {raw : String} {e : ℕ} {blocks : List (List String)}
    (hj : junkLine raw = false)
    (hc : startsWithSpace raw = true ∧ blocks ≠ [] ∧ blocks.length < e) :
    splitStep e blocks raw = blocks ++ [[rustTrim raw]] := by
  simp only [junkLine] at hj
  simp only [splitStep, hj, Bool.false_eq_true, if_false]
  rw [if_pos hc, if_neg (by simp), pushLast_concat]
  simp

theorem splitStep_first {raw : String} {e : ℕ} {blocks : List (List String)}
    (hj : junkLine raw = false)
    (hc : ¬(startsWithSpace raw = true ∧ blocks ≠ [] ∧ blocks.length < e))
    (hb : blocks = []) : splitStep e blocks raw = [[rustTrim raw]] := by
  simp only [junkLine] at hj
  simp only [splitStep, hj, Bool.false_eq_true, if_false]
  rw [if_neg hc, if_pos hb]
  rfl

theorem splitStep_append {raw : String} {e : ℕ} {blocks : List (List String)}
    (hj : junkLine raw = false)
    (hc : ¬(startsWithSpace raw = true ∧ blocks ≠ [] ∧ blocks.length < e))
    (hb : blocks ≠ []) :
    splitStep e blocks raw = blocks.dropLast ++ [blocks.getLast hb ++ [rustTrim raw]] := by
  simp only [junkLine] at hj
  simp only [splitStep, hj, Bool.false_eq_true, if_false]
  rw [if_neg hc, if_neg hb, pushLast_ne_nil_eq blocks hb]

/-! ### Claim C6 — the new-block rule of `split_blocks` -/

/-- C6 (counterexample): on the input lines `["x", "\ty"]` with 2 expected
blocks, the tab-indented second line has leading whitespace, at least one
block exists, and the count is below 2 — so the claim's rule starts a new
block — but the implementation tests `starts_with(' ')` only, so it appends:
the implementation and the claim's splitter disagree. -/
theorem claim_C6_counterexample :
    split_blocks ["x", "\ty"] 2 ≠ splitBlocksSpec hasLeadingWS 2 [] ["x", "\ty"] := by
  decide

/-- C6 (amended): with "leading whitespace" corrected to "a leading space
character", the claim describes `split_blocks` exactly: a non-junk line
starts a new block iff it begins with `' '`, at least one block exists, and
the block count is below `expected_blocks`; every other non-junk line is
appended to the last block, a first block being created if none exists. -/
theorem claim_C6 (lines : List String) (expected : ℕ) :
    split_blocks lines expected = splitBlocksSpec startsWithSpace expected [] lines := by
  suffices h : ∀ blocks, lines.foldl (splitStep expected) blocks =
      splitBlocksSpec startsWithSpace expected blocks lines from h []
  induction lines with
  | nil => intro blocks; rfl
  | cons raw rest ih =>
    intro blocks
    rw [List.foldl_cons]
    cases hj : junkLine raw with
    | true =>
      rw [splitStep_junk expected blocks hj]
      simp only [splitBlocksSpec, hj, if_true]
      exact ih blocks
    | false =>
      by_cases hc : startsWithSpace raw = true ∧ blocks ≠ [] ∧ blocks.length < expected
      · rw [splitStep_new hj hc]
        simp only [splitBlocksSpec, hj, Bool.false_eq_true, if_false, if_pos hc]
        exact ih _
      · by_cases hb : blocks = []
        · rw [splitStep_first hj hc hb]
          simp only [splitBlocksSpec, hj, Bool.false_eq_true, if_false, if_neg hc, dif_pos hb]
          exact ih _
        · rw [splitStep_append hj hc hb]
          simp only [splitBlocksSpec, hj, Bool.false_eq_true, if_false, if_neg hc, dif_neg hb]
          exact ih _

/-! ### Claim C9 — `split_blocks` produces at most `expected` nonempty blocks -/

theorem split_blocks_inv (lines : List String) (expected : ℕ) (h1 : 1 ≤ expected) :
    ∀ blocks, blocks.length ≤ expected → (∀ b ∈ blocks, b ≠ []) →
      (lines.foldl (splitStep expected) blocks).length ≤ expected ∧
      ∀ b ∈ lines.foldl (splitStep expected) blocks, b ≠ [] := by
  induction lines with
  | nil => exact fun blocks hl hb => ⟨hl, hb⟩
  | cons raw rest ih =>
    intro blocks hl hb
    rw [List.foldl_cons]
    cases hj : junkLine raw with
    | true =>
      rw [splitStep_junk expected blocks hj]
      exact ih blocks hl hb
    | false =>
      by_cases hc : startsWithSpace raw = true ∧ blocks ≠ [] ∧ blocks.length < expected
      · rw [splitStep_new hj hc]
        refine ih _ (by simp; omega) ?_
        intro b hbm
        rcases List.mem_append.1 hbm with h | h
        · exact hb b h
        · simp only [List.mem_singleton] at h
          simp [h]
      · by_cases hbn : blocks = []
        · rw [splitStep_first hj hc hbn]
          refine ih _ (by simpa using h1) ?_
          intro b hbm
          simp only [List.mem_singleton] at hbm
          simp [hbm]
        · rw [splitStep_append hj hc hbn]
          refine ih _ ?_ ?_
          · have : 1 ≤ blocks.length := List.length_pos.2 hbn
            simp only [List.length_append, List.length_dropLast, List.length_singleton]
            omega
          · intro b hbm
            rcases List.mem_append.1 hbm with h | h
            · exact hb b (List.dropLast_subset _ h)
            · simp only [List.mem_singleton] at h
              simp [h]

/-- C9: for `expected_blocks ≥ 1`, `split_blocks` returns at most
`expected_blocks` blocks, each nonempty; hence a block-count mismatch in
`parse_weekly_menu` can only be a shortfall, never an excess. -/
theorem claim_C9 (lines : List String) (expected : ℕ) (h1 : 1 ≤ expected) :
    (split_blocks lines expected).length ≤ expected ∧
    (∀ b ∈ split_blocks lines expected, b ≠ []) ∧
    ((split_blocks lines expected).length ≠ expected →
      (split_blocks lines expected).length < expected) := by
  have h := split_blocks_inv lines expected h1 [] (by simp) (by simp)
  exact ⟨h.1, h.2, fun hne => lt_of_le_of_ne h.1 hne⟩

/-- C9 (witness): a concrete instance of the block-count bound. -/
theorem claim_C9_witness :
    (1 ≤ 5) ∧ (split_blocks [" a", "b", " c"] 5).length ≤ 5 := by
  exact ⟨by decide, (claim_C9 [" a", "b", " c"] 5 (by decide)).1⟩

/-! ### Claim C8 — `fill_first_line_per_day` assigns positionally -/

theorem findIdx_not_replicate (j m i : ℕ) :
    List.findIdx? (fun b => !b) (List.replicate j true ++ List.replicate m false) i =
      if m = 0 then none else some (i + j) := by
  induction j generalizing i with
  | zero =>
    cases m with
    | zero => simp
    | succ m' => simp [List.replicate_succ, List.findIdx?_cons]
  | succ j' ih =>
    rw [List.replicate_succ, List.cons_append, List.findIdx?_cons]
    simp only [Bool.not_true, Bool.false_eq_true, if_false]
    rw [ih (i + 1)]
    cases m with
    | zero => simp
    | succ m'' =>
      simp only [Nat.succ_ne_zero, if_false]
      congr 1
      omega

theorem set_replicate_succ (j m : ℕ) :
    (List.replicate j true ++ List.replicate (m + 1) false).set j true =
      List.replicate (j + 1) true ++ List.replicate m false := by
  induction j with
  | zero => simp [List.replicate_succ, List.set_cons_zero]
  | succ j' ih =>
    rw [List.replicate_succ, List.cons_append, List.set_cons_succ, ih]
    simp [List.replicate_succ]

theorem nonJunkTrimmed_cons_junk {raw : String} (rest : List String)
    (hj : junkLine raw = true) :
    nonJunkTrimmed (raw :: rest) = nonJunkTrimmed rest := by
  simp [nonJunkTrimmed, List.filter_cons, hj]

theorem nonJunkTrimmed_cons_ok {raw : String} (rest : List String)
    (hj : junkLine raw = false) :
    nonJunkTrimmed (raw :: rest) = rustTrim raw :: nonJunkTrimmed rest := by
  simp [nonJunkTrimmed, List.filter_cons, hj]

theorem fillStep_junk {raw : String} (w : NaiveDate) (period : String)
    (acc : MenuMap × List Bool) (hj : junkLine raw = true) :
    fillStep w period acc raw = acc := by
  simp only [junkLine] at hj
  simp only [fillStep, hj, if_true]

theorem fill_fold_eq (w : NaiveDate) (period : String) (lines : List String) :
    ∀ (out : MenuMap) (j m : ℕ),
      (lines.foldl (fillStep w period)
        (out, List.replicate j true ++ List.replicate m false)).1 =
      (List.enumFrom j ((nonJunkTrimmed lines).take m)).foldl
        (fun o p => mapInsert o (format_date (addDays w p.1) ++ "-" ++ period) p.2) out := by
  induction lines with
  | nil =>
    intro out j m
    simp [nonJunkTrimmed]
  | cons raw rest ih =>
    intro out j m
    rw [List.foldl_cons]
    cases hj : junkLine raw with
    | true =>
      rw [fillStep_junk w period _ hj, nonJunkTrimmed_cons_junk rest hj]
      exact ih out j m
    | false =>
      have hj' := hj
      simp only [junkLine] at hj'
      rw [nonJunkTrimmed_cons_ok rest hj]
      cases m with
      | zero =>
        have e : fillStep w period (out, List.replicate j true ++ List.replicate 0 false) raw
            = (out, List.replicate j true ++ List.replicate 0 false) := by
          simp only [fillStep, hj', Bool.false_eq_true, if_false]
          rw [findIdx_not_replicate j 0 0]
          simp
        rw [e]
        rw [List.take_zero, show List.enumFrom j ([] : List String) = [] from rfl]
        have := ih out j 0
        rw [List.take_zero, show List.enumFrom j ([] : List String) = [] from rfl] at this
        exact this
      | succ m' =>
        have e : fillStep w period
            (out, List.replicate j true ++ List.replicate (m' + 1) false) raw =
            (mapInsert out (format_date (addDays w j) ++ "-" ++ period) (rustTrim raw),
             List.replicate (j + 1) true ++ List.replicate m' false) := by
          simp only [fillStep, hj', Bool.false_eq_true, if_false]
          rw [findIdx_not_replicate j (m' + 1) 0]
          simp only [Nat.succ_ne_zero, if_false, Nat.zero_add]
          rw [set_replicate_succ j m']
        rw [e, List.take_succ_cons, List.enumFrom_cons, List.foldl_cons]
        exact ih _ (j + 1) m'

/-- C8: `fill_first_line_per_day` is exactly the positional assignment of the
first `days` non-junk (trimmed) lines: the `i`-th such line is inserted under
day `i`'s key. This form realises each clause of the claim: every day gets at
most one line (the indices `0, 1, …` of the assignment list are distinct),
no line occurrence is assigned to two days (the assignment list pairs each
taken line with exactly one index), and there are at most `days` assignments
(the assignment list is a `take days`). -/
theorem fill_eq_enum (lines : List String) (week_start : NaiveDate) (days : ℕ)
    (period : String) (out : MenuMap) :
    fill_first_line_per_day lines week_start days period out =
      (List.enumFrom 0 ((nonJunkTrimmed lines).take days)).foldl
        (fun o p => mapInsert o (format_date (addDays week_start p.1) ++ "-" ++ period) p.2)
        out := by
  have h := fill_fold_eq week_start period lines out 0 days
  simpa [fill_first_line_per_day] using h

theorem claim_C8 (lines : List String) (week_start : NaiveDate) (days : ℕ)
    (period : String) (out : MenuMap) :
    fill_first_line_per_day lines week_start days period out =
      (List.enumFrom 0 ((nonJunkTrimmed lines).take days)).foldl
        (fun o p => mapInsert o (format_date (addDays week_start p.1) ++ "-" ++ period) p.2)
        out ∧
    ((List.enumFrom 0 ((nonJunkTrimmed lines).take days)).map Prod.fst).Nodup ∧
    (List.enumFrom 0 ((nonJunkTrimmed lines).take days)).length ≤ days := by
  refine ⟨fill_eq_enum lines week_start days period out, ?_, ?_⟩
  · rw [List.enumFrom_map_fst]
    exact List.nodup_range' 0 _
  · simp [List.length_take]

/-! ### Claims C2 and C3 — the week resolver -/

theorem find?_first {α : Type} (p : α → Bool) :
    ∀ (l : List α) (r : α), l.find? p = some r →
      ∃ l1 l2, l = l1 ++ r :: l2 ∧ p r = true ∧ ∀ v ∈ l1, p v = false := by
  intro l
  induction l with
  | nil => intro r h; simp at h
  | cons x xs ih =>
    intro r h
    by_cases hx : p x = true
    · rw [List.find?_cons_of_pos _ hx] at h
      obtain rfl : x = r := by injection h
      exact ⟨[], xs, rfl, hx, by simp⟩
    · rw [List.find?_cons_of_neg _ hx] at h
      obtain ⟨l1, l2, hdec, hr, hall⟩ := ih r h
      refine ⟨x :: l1, l2, by rw [hdec, List.cons_append], hr, ?_⟩
      intro v hv
      rcases List.mem_cons.1 hv with rfl | hv
      · exact Bool.eq_false_iff.2 hx
      · exact hall v hv

theorem find?_isSome_of_exists {α : Type} (p : α → Bool) :
    ∀ (l : List α), (∃ x ∈ l, p x = true) → ∃ r, l.find? p = some r := by
  intro l
  induction l with
  | nil => rintro ⟨x, hx, _⟩; simp at hx
  | cons y ys ih =>
    rintro ⟨x, hx, hpx⟩
    by_cases hy : p y = true
    · exact ⟨y, List.find?_cons_of_pos _ hy⟩
    · rcases List.mem_cons.1 hx with rfl | hx
      · exact absurd hpx hy
      · obtain ⟨r, hr⟩ := ih ⟨x, hx, hpx⟩
        exact ⟨r, by rw [List.find?_cons_of_neg _ hy]; exact hr⟩

theorem minByKey_eq_none {α : Type} (f : α → ℤ) (l : List α) :
    minByKey f l = none ↔ l = [] := by
  cases l with
  | nil => simp [minByKey]
  | cons x xs =>
    simp only [minByKey]
    cases minByKey f xs with
    | none => simp
    | some y =>
      by_cases h : f x ≤ f y <;> simp [h]

theorem minByKey_first {α : Type} (f : α → ℤ) :
    ∀ (l : List α) (r : α), minByKey f l = some r →
      ∃ l1 l2, l = l1 ++ r :: l2 ∧ (∀ w ∈ l, f r ≤ f w) ∧ ∀ w ∈ l1, f r < f w := by
  intro l
  induction l with
  | nil => intro r h; simp [minByKey] at h
  | cons x xs ih =>
    intro r h
    cases hm : minByKey f xs with
    | none =>
      have hxs : xs = [] := (minByKey_eq_none f xs).1 hm
      subst hxs
      simp only [minByKey] at h
      injection h with h
      subst h
      refine ⟨[], [], rfl, ?_, by simp⟩
      intro w hw
      rcases List.mem_cons.1 hw with rfl | hw
      · exact le_refl _
      · simp at hw
    | some y =>
      simp only [minByKey, hm] at h
      obtain ⟨m1, m2, hdec, hymin, hyfirst⟩ := ih y hm
      by_cases hle : f x ≤ f y
      · rw [if_pos hle] at h
        injection h with h
        subst h
        refine ⟨[], xs, rfl, ?_, by simp⟩
        intro w hw
        rcases List.mem_cons.1 hw with rfl | hw
        · exact le_refl _
        · exact le_trans hle (hymin w hw)
      · rw [if_neg hle] at h
        injection h with h
        subst h
        push_neg at hle
        refine ⟨x :: m1, m2, by rw [hdec, List.cons_append], ?_, ?_⟩
        · intro w hw
          rcases List.mem_cons.1 hw with rfl | hw
          · exact le_of_lt hle
          · exact hymin w hw
        · intro w hw
          rcases List.mem_cons.1 hw with rfl | hw
          · exact hle
          · exact hyfirst w hw

/-- C2: whenever the requested date lies inside some known week's 7-day
span, `choose_inferred_week_start` returns the first such week in iteration
order — an exact containment match. -/
theorem claim_C2 (ws : List ℤ) (req today : ℤ)
    (h : ∃ w ∈ ws, w ≤ req ∧ req ≤ w + 6) :
    ∃ w l1 l2, choose_inferred_week_start ws req today = some w ∧
      ws = l1 ++ w :: l2 ∧ (w ≤ req ∧ req ≤ w + 6) ∧
      ∀ v ∈ l1, ¬ (v ≤ req ∧ req ≤ v + 6) := by
  obtain ⟨w0, hw0, hc0⟩ := h
  have hne : ws ≠ [] := by rintro rfl; simp at hw0
  have hex : ∃ x ∈ ws, (fun w => decide (w ≤ req ∧ req ≤ w + 6)) x = true :=
    ⟨w0, hw0, by simpa using hc0⟩
  obtain ⟨r, hr⟩ := find?_isSome_of_exists _ ws hex
  obtain ⟨l1, l2, hdec, hpr, hall⟩ := find?_first _ ws r hr
  refine ⟨r, l1, l2, ?_, hdec, by simpa using hpr, ?_⟩
  · simp only [choose_inferred_week_start, if_neg hne, hr]
  · intro v hv
    simpa using hall v hv

/-- C2 (witness): containment hit on a concrete candidate list. -/
theorem claim_C2_witness :
    (∃ w ∈ [(3 : ℤ)], w ≤ 5 ∧ (5 : ℤ) ≤ w + 6) ∧
    ∃ w l1 l2, choose_inferred_week_start [(3 : ℤ)] 5 0 = some w ∧
      [(3 : ℤ)] = l1 ++ w :: l2 ∧ (w ≤ 5 ∧ (5 : ℤ) ≤ w + 6) ∧
      ∀ v ∈ l1, ¬ (v ≤ 5 ∧ (5 : ℤ) ≤ v + 6) := by
  exact ⟨⟨3, by decide, by decide⟩, claim_C2 [3] 5 0 ⟨3, by decide, by decide⟩⟩

/-- C3: with no containing week and a nonempty candidate list, the resolver
returns the first candidate minimising absolute day-distance to the inferred
target `today_week + 7·⌊(requested − today)/7⌋` (Euclidean division, so
negative offsets round toward −∞), where `today_week` is the first candidate
minimising absolute day-distance to `today`. -/
theorem claim_C3 (ws : List ℤ) (req today : ℤ) (hne : ws ≠ [])
    (hno : ∀ w ∈ ws, ¬ (w ≤ req ∧ req ≤ w + 6)) :
    ∃ tw r, FirstMinBy (fun w => |today - w|) ws tw ∧
      FirstMinBy (fun w => |(tw + Int.ediv (req - today) 7 * 7) - w|) ws r ∧
      choose_inferred_week_start ws req today = some r := by
  have hfind : ws.find? (fun w => decide (w ≤ req ∧ req ≤ w + 6)) = none := by
    rw [List.find?_eq_none]
    intro x hx
    simpa using hno x hx
  obtain ⟨tw, htw⟩ : ∃ tw, minByKey (fun c => |today - c|) ws = some tw := by
    cases hm : minByKey (fun c => |today - c|) ws with
    | none => exact absurd ((minByKey_eq_none _ _).1 hm) hne
    | some tw => exact ⟨tw, rfl⟩
  obtain ⟨r, hr⟩ :
      ∃ r, minByKey (fun c => |(tw + Int.ediv (req - today) 7 * 7) - c|) ws = some r := by
    cases hm : minByKey (fun c => |(tw + Int.ediv (req - today) 7 * 7) - c|) ws with
    | none => exact absurd ((minByKey_eq_none _ _).1 hm) hne
    | some r => exact ⟨r, rfl⟩
  refine ⟨tw, r, ?_, ?_, ?_⟩
  · obtain ⟨l1, l2, hd, hmin, hfirst⟩ := minByKey_first _ ws tw htw
    exact ⟨l1, l2, hd, hmin, hfirst⟩
  · obtain ⟨l1, l2, hd, hmin, hfirst⟩ := minByKey_first _ ws r hr
    exact ⟨l1, l2, hd, hmin, hfirst⟩
  · simp only [choose_inferred_week_start, if_neg hne, hfind, htw]
    exact hr

/-- C3 (witness): inference on a concrete candidate list with the requested
date beyond the published horizon. -/
theorem claim_C3_witness :
    (([(0 : ℤ)] : List ℤ) ≠ [] ∧ ∀ w ∈ [(0 : ℤ)], ¬ (w ≤ 10 ∧ (10 : ℤ) ≤ w + 6)) ∧
    ∃ tw r, FirstMinBy (fun w => |(0 : ℤ) - w|) [(0 : ℤ)] tw ∧
      FirstMinBy (fun w => |(tw + Int.ediv ((10 : ℤ) - 0) 7 * 7) - w|) [(0 : ℤ)] r ∧
      choose_inferred_week_start [(0 : ℤ)] 10 0 = some r := by
  exact ⟨⟨by decide, by decide⟩, claim_C3 [0] 10 0 (by decide) (by decide)⟩

/-! ### Claim C7 — date formatting/parsing round-trip -/

theorem natDigitsF_irrel : ∀ (f1 : ℕ) (f2 n : ℕ), n < f1 → n < f2 →
    natDigitsF f1 n = natDigitsF f2 n := by
  intro f1
  induction f1 with
  | zero => intro f2 n h1 _; omega
  | succ f1' ih =>
    intro f2 n h1 h2
    cases f2 with
    | zero => omega
    | succ f2' =>
      simp only [natDigitsF]
      by_cases h : n < 10
      · rw [if_pos h, if_pos h]
      · rw [if_neg h, if_neg h]
        have hlt : n / 10 < n := Nat.div_lt_self (by omega) (by omega)
        rw [ih f2' (n / 10) (by omega) (by omega)]

theorem natDigits_eq (n : ℕ) :
    natDigits n = if n < 10 then [digitChar n]
                  else natDigits (n / 10) ++ [digitChar (n % 10)] := by
  show natDigitsF (n + 1) n = _
  by_cases h : n < 10
  · simp only [natDigitsF, if_pos h]
  · simp only [natDigitsF, if_neg h]
    have hlt : n / 10 < n := Nat.div_lt_self (by omega) (by omega)
    rw [natDigitsF_irrel n (n / 10 + 1) (n / 10) (by omega) (by omega)]
    rfl

theorem natDigits_ne_nil (n : ℕ) : natDigits n ≠ [] := by
  rw [natDigits_eq]
  by_cases h : n < 10
  · simp [h]
  · simp [h]

theorem natDigits_digits (n : ℕ) : ∀ c ∈ natDigits n, ∃ d, d < 10 ∧ c = digitChar d := by
  induction n using Nat.strong_induction_on with
  | _ n ih =>
    intro c hc
    rw [natDigits_eq] at hc
    by_cases h : n < 10
    · rw [if_pos h] at hc
      simp only [List.mem_singleton] at hc
      exact ⟨n, h, hc⟩
    · rw [if_neg h] at hc
      rcases List.mem_append.1 hc with hm | hm
      · exact ih (n / 10) (Nat.div_lt_self (by omega) (by omega)) c hm
      · simp only [List.mem_singleton] at hm
        exact ⟨n % 10, Nat.mod_lt _ (by omega), hm⟩

theorem charDigit?_digitChar {d : ℕ} (h : d < 10) : charDigit? (digitChar d) = some d := by
  interval_cases d <;> decide

theorem digitChar_not_special {d : ℕ} (h : d < 10) :
    dateSep (digitChar d) = false ∧ digitChar d ≠ '+' ∧ digitChar d ≠ '-' ∧
    digitChar d ≠ '/' := by
  interval_cases d <;> decide

theorem parseDigitsAux_append (xs : List Char) : ∀ (acc : ℕ) (ys : List Char),
    parseDigitsAux acc (xs ++ ys) =
      (parseDigitsAux acc xs).bind (fun a => parseDigitsAux a ys) := by
  induction xs with
  | nil => intro acc ys; rfl
  | cons c cs ih =>
    intro acc ys
    rw [List.cons_append]
    cases hc : charDigit? c with
    | none => simp [parseDigitsAux, hc]
    | some d => simp [parseDigitsAux, hc, ih]

theorem parseDigitsAux_natDigits (n : ℕ) : ∀ acc,
    parseDigitsAux acc (natDigits n) = some (acc * 10 ^ (natDigits n).length + n) := by
  induction n using Nat.strong_induction_on with
  | _ n ih =>
    intro acc
    rw [natDigits_eq]
    by_cases h : n < 10
    · rw [if_pos h]
      simp [parseDigitsAux, charDigit?_digitChar h]
    · rw [if_neg h]
      rw [parseDigitsAux_append, ih (n / 10) (Nat.div_lt_self (by omega) (by omega)) acc]
      simp only [Option.some_bind]
      simp only [parseDigitsAux, charDigit?_digitChar (Nat.mod_lt n (show 0 < 10 by omega))]
      simp only [List.length_append, List.length_singleton]
      congr 1
      have key : n / 10 * 10 + n % 10 = n := by omega
      calc (acc * 10 ^ (natDigits (n / 10)).length + n / 10) * 10 + n % 10
          = acc * (10 ^ (natDigits (n / 10)).length * 10) + (n / 10 * 10 + n % 10) := by ring
        _ = acc * 10 ^ ((natDigits (n / 10)).length + 1) + n := by rw [key, pow_succ]

theorem parseDigitsAux_zeros (k : ℕ) : ∀ acc,
    parseDigitsAux acc (List.replicate k '0') = some (acc * 10 ^ k) := by
  induction k with
  | zero => intro acc; simp [parseDigitsAux]
  | succ k' ih =>
    intro acc
    rw [List.replicate_succ]
    simp only [parseDigitsAux, show charDigit? '0' = some 0 from rfl]
    rw [ih (acc * 10 + 0)]
    congr 1
    ring

theorem padZeros_ne_nil (w n : ℕ) : padZeros w (natDigits n) ≠ [] := by
  simp only [padZeros]
  intro h
  rcases List.append_eq_nil.1 h with ⟨_, h2⟩
  exact natDigits_ne_nil n h2

theorem parseNat_pad (w n : ℕ) : parseNatRaw (padZeros w (natDigits n)) = some n := by
  rw [parseNatRaw, if_neg (padZeros_ne_nil w n)]
  rw [padZeros, parseDigitsAux_append, parseDigitsAux_zeros _ 0]
  simp only [Option.some_bind, Nat.zero_mul]
  rw [parseDigitsAux_natDigits n 0]
  simp

theorem padDigits_all (w n : ℕ) :
    ∀ c ∈ padZeros w (natDigits n), ∃ d, d < 10 ∧ c = digitChar d := by
  intro c hc
  rcases List.mem_append.1 hc with h | h
  · rw [List.eq_of_mem_replicate h]
    exact ⟨0, by omega, rfl⟩
  · exact natDigits_digits n c h

theorem padDigits_head (w n : ℕ) :
    ∃ d, d < 10 ∧ (padZeros w (natDigits n)).head? = some (digitChar d) := by
  cases hA : padZeros w (natDigits n) with
  | nil => exact absurd hA (padZeros_ne_nil w n)
  | cons a rest =>
    obtain ⟨d, hd, hc⟩ := padDigits_all w n a (by rw [hA]; exact List.mem_cons_self a rest)
    exact ⟨d, hd, by rw [List.head?_cons, hc]⟩

theorem splitChars_all_false (p : Char → Bool) :
    ∀ l, (∀ c ∈ l, p c = false) → splitChars p l = [l] := by
  intro l
  induction l with
  | nil => intro _; rfl
  | cons c cs ih =>
    intro h
    have hc : p c = false := h c (List.mem_cons_self c cs)
    simp only [splitChars, hc, Bool.false_eq_true, if_false]
    rw [ih (fun x hx => h x (List.mem_cons_of_mem c hx))]

theorem splitChars_sep (p : Char → Bool) (xs : List Char)
    (hxs : ∀ c ∈ xs, p c = false) {c : Char} (hc : p c = true) (ys : List Char) :
    splitChars p (xs ++ c :: ys) = xs :: splitChars p ys := by
  induction xs with
  | nil =>
    rw [List.nil_append]
    simp only [splitChars, hc, if_true]
  | cons x xs' ih =>
    have hx : p x = false := hxs x (List.mem_cons_self x xs')
    rw [List.cons_append]
    simp only [splitChars, hx, Bool.false_eq_true, if_false]
    rw [ih (fun d hd => hxs d (List.mem_cons_of_mem x hd))]

theorem mapSlash_digits (l : List Char)
    (h : ∀ c ∈ l, ∃ d, d < 10 ∧ c = digitChar d) :
    l.map (fun c => if c = '-' then '/' else c) = l := by
  induction l with
  | nil => rfl
  | cons c cs ih =>
    obtain ⟨d, hd, hc⟩ := h c (List.mem_cons_self c cs)
    rw [List.map_cons, ih (fun x hx => h x (List.mem_cons_of_mem c hx))]
    have : c ≠ '-' := by rw [hc]; exact (digitChar_not_special hd).2.2.1
    rw [if_neg this]

theorem daysInMonth_le (y : ℤ) (m : ℕ) : daysInMonth y m ≤ 31 := by
  unfold daysInMonth
  split <;> first | omega | (split <;> omega)

theorem isEmpty_false_of_ne_nil {α : Type} {l : List α} (h : l ≠ []) :
    l.isEmpty = false := by
  cases l with
  | nil => exact absurd rfl h
  | cons x xs => rfl

theorem parseU32_pad {n : ℕ} (w : ℕ) (hn : n ≤ 4294967295) :
    parseU32 (padZeros w (natDigits n)) = some n := by
  obtain ⟨d, hd, hhead⟩ := padDigits_head w n
  simp only [parseU32]
  rw [if_neg (by
    rw [hhead]
    intro hcon
    injection hcon with hc
    exact (digitChar_not_special hd).2.1 hc)]
  rw [parseNat_pad]
  simp [hn]

theorem parseI32_pad {n : ℕ} (w : ℕ) (hn : n ≤ 2147483647) :
    parseI32 (padZeros w (natDigits n)) = some (n : ℤ) := by
  obtain ⟨d, hd, hhead⟩ := padDigits_head w n
  simp only [parseI32]
  rw [if_neg (by
    rw [hhead]
    intro hcon
    injection hcon with hc
    exact (digitChar_not_special hd).2.1 hc)]
  rw [if_neg (by
    rw [hhead]
    intro hcon
    injection hcon with hc
    exact (digitChar_not_special hd).2.2.1 hc)]
  rw [parseNat_pad]
  simp [hn]

/-- C7 (counterexample): `⟨-4, 3, 2⟩` is a valid chrono date, but formatting
it gives `"-004-03-02"`, whose leading `'-'` is consumed as a separator by
`parse_date_param`, which therefore returns the year `+4` date instead. -/
theorem claim_C7_counterexample :
    ValidYmd (-4 : ℤ) 3 2 ∧
    parse_date_param (format_date ⟨-4, 3, 2⟩) ≠ some ⟨-4, 3, 2⟩ ∧
    parse_date_param (format_date ⟨-4, 3, 2⟩) = some ⟨4, 3, 2⟩ := by
  exact ⟨by decide, by decide, by decide⟩

/-- C7 (amended): for every valid calendar date with a nonnegative year,
formatting with `format_date` (or the same string with `'/'` for `'-'`) and
parsing with `parse_date_param` returns the original date. -/
theorem claim_C7 (dt : NaiveDate) (hv : ValidYmd dt.year dt.month dt.day)
    (hy : 0 ≤ dt.year) :
    parse_date_param (format_date dt) = some dt ∧
    parse_date_param (slashDate dt) = some dt := by
  obtain ⟨hy1, hy2, hm1, hm2, hd1, hd2⟩ := hv
  have hAfalse : ∀ c ∈ padZeros 4 (natDigits dt.year.toNat), dateSep c = false := by
    intro c hc
    obtain ⟨d, hd, rfl⟩ := padDigits_all 4 _ c hc
    exact (digitChar_not_special hd).1
  have hBfalse : ∀ c ∈ padZeros 2 (natDigits dt.month), dateSep c = false := by
    intro c hc
    obtain ⟨d, hd, rfl⟩ := padDigits_all 2 _ c hc
    exact (digitChar_not_special hd).1
  have hCfalse : ∀ c ∈ padZeros 2 (natDigits dt.day), dateSep c = false := by
    intro c hc
    obtain ⟨d, hd, rfl⟩ := padDigits_all 2 _ c hc
    exact (digitChar_not_special hd).1
  have hfd : (format_date dt).data =
      padZeros 4 (natDigits dt.year.toNat) ++ '-' ::
      (padZeros 2 (natDigits dt.month) ++ '-' :: padZeros 2 (natDigits dt.day)) := by
    show fmtInt 4 dt.year ++ '-' :: fmtNat 2 dt.month ++ '-' :: fmtNat 2 dt.day = _
    rw [fmtInt, if_neg (by omega)]
    unfold fmtNat
    rw [List.append_assoc, List.cons_append]
  have hy31 : dt.year.toNat ≤ 2147483647 := by omega
  have hm32 : dt.month ≤ 4294967295 := by omega
  have hd32 : dt.day ≤ 4294967295 := by
    have := daysInMonth_le dt.year dt.month
    omega
  have hyy : ((dt.year.toNat : ℤ)) = dt.year := Int.toNat_of_nonneg hy
  have hvv : ValidYmd dt.year dt.month dt.day := ⟨hy1, hy2, hm1, hm2, hd1, hd2⟩
  constructor
  · have hparts : (splitChars dateSep (format_date dt).data).filter (fun p => !p.isEmpty) =
        [padZeros 4 (natDigits dt.year.toNat), padZeros 2 (natDigits dt.month),
         padZeros 2 (natDigits dt.day)] := by
      rw [hfd, splitChars_sep dateSep _ hAfalse (by decide) _,
          splitChars_sep dateSep _ hBfalse (by decide) _,
          splitChars_all_false dateSep _ hCfalse]
      simp [List.filter_cons, isEmpty_false_of_ne_nil (padZeros_ne_nil _ _)]
    simp only [parse_date_param, hparts]
    rw [parseI32_pad 4 hy31]
    simp only [Option.some_bind]
    rw [hyy, parseU32_pad 2 hm32]
    simp only [Option.some_bind]
    rw [parseU32_pad 2 hd32]
    simp only [Option.some_bind]
    rw [from_ymd_opt, if_pos hvv]
  · have hsd : (slashDate dt).data =
        padZeros 4 (natDigits dt.year.toNat) ++ '/' ::
        (padZeros 2 (natDigits dt.month) ++ '/' :: padZeros 2 (natDigits dt.day)) := by
      show ((format_date dt).data.map (fun c => if c = '-' then '/' else c)) = _
      rw [hfd]
      rw [List.map_append, List.map_cons, List.map_append, List.map_cons]
      rw [mapSlash_digits _ (padDigits_all 4 _), mapSlash_digits _ (padDigits_all 2 _),
          mapSlash_digits _ (padDigits_all 2 _)]
      rfl
    have hparts : (splitChars dateSep (slashDate dt).data).filter (fun p => !p.isEmpty) =
        [padZeros 4 (natDigits dt.year.toNat), padZeros 2 (natDigits dt.month),
         padZeros 2 (natDigits dt.day)] := by
      rw [hsd, splitChars_sep dateSep _ hAfalse (by decide) _,
          splitChars_sep dateSep _ hBfalse (by decide) _,
          splitChars_all_false dateSep _ hCfalse]
      simp [List.filter_cons, isEmpty_false_of_ne_nil (padZeros_ne_nil _ _)]
    simp only [parse_date_param, hparts]
    rw [parseI32_pad 4 hy31]
    simp only [Option.some_bind]
    rw [hyy, parseU32_pad 2 hm32]
    simp only [Option.some_bind]
    rw [parseU32_pad 2 hd32]
    simp only [Option.some_bind]
    rw [from_ymd_opt, if_pos hvv]

/-- C7 (witness): the round-trip at 2026-02-09. -/
theorem claim_C7_witness :
    (ValidYmd (2026 : ℤ) 2 9 ∧ (0 : ℤ) ≤ 2026) ∧
    parse_date_param (format_date ⟨2026, 2, 9⟩) = some ⟨2026, 2, 9⟩ := by
  exact ⟨⟨by decide, by decide⟩, (claim_C7 ⟨2026, 2, 9⟩ (by decide) (by decide)).1⟩

/-! ### Claim C10 — every key of the weekly map is date-in-week + period -/

theorem findIdx?_lt_length {α : Type} (p : α → Bool) :
    ∀ (l : List α) (i j : ℕ), List.findIdx? p l i = some j → j < i + l.length := by
  intro l
  induction l with
  | nil => intro i j h; simp [List.findIdx?] at h
  | cons x xs ih =>
    intro i j h
    rw [List.findIdx?_cons] at h
    by_cases hx : p x = true
    · rw [if_pos hx] at h
      injection h with h
      subst h
      simp only [List.length_cons]
      omega
    · rw [if_neg hx] at h
      have := ih (i + 1) j h
      simp only [List.length_cons]
      omega

theorem bufferPush_out (st : ParseState) (line : String) :
    (bufferPush st line).out = st.out := by
  unfold bufferPush
  split_ifs <;> rfl

theorem bufferPush_found (st : ParseState) (line : String) :
    (bufferPush st line).breakfast_found = st.breakfast_found := by
  unfold bufferPush
  split_ifs <;> rfl

theorem breakfast_key_good (w : NaiveDate) {day : ℕ} (h : day < 5) :
    GoodKey w (format_date (addDays w day) ++ "-breakfast") := by
  refine ⟨day, "breakfast", ?_, Or.inl ⟨rfl, by omega⟩⟩
  rw [show ("-breakfast" : String) = "-" ++ "breakfast" from by decide,
      ← String.append_assoc]

theorem brunch_key_good (w : NaiveDate) {day : ℕ} (h : day = 5 ∨ day = 6) :
    GoodKey w (format_date (addDays w day) ++ "-brunch") := by
  refine ⟨day, "brunch", ?_, Or.inr (Or.inl ⟨rfl, h⟩)⟩
  rw [show ("-brunch" : String) = "-" ++ "brunch" from by decide,
      ← String.append_assoc]

theorem segContent_inv (w : NaiveDate) (st : ParseState) (line : String)
    (hout : ∀ k ∈ mapKeys st.out, GoodKey w k)
    (hlen : st.breakfast_found.length = 5) :
    (∀ k ∈ mapKeys (segContent w st line).out, GoodKey w k) ∧
    (segContent w st line).breakfast_found.length = 5 := by
  have h1 : (bufferPush st line).out = st.out := bufferPush_out st line
  have h2 : (bufferPush st line).breakfast_found = st.breakfast_found :=
    bufferPush_found st line
  simp only [segContent]
  split_ifs with hj hbk hne hbs hbsun
  · rw [h1, h2]
    exact ⟨hout, hlen⟩
  · cases hidx : (bufferPush st line).breakfast_found.findIdx? (fun b => !b) with
    | some day =>
      have hday : day < 5 := by
        have := findIdx?_lt_length _ _ 0 day hidx
        rw [h2, hlen] at this
        omega
      simp only [hidx]
      constructor
      · intro k hk
        rcases mem_mapKeys_insert hk with rfl | hk
        · exact breakfast_key_good w hday
        · rw [h1] at hk
          exact hout k hk
      · simp only [List.length_set, h2, hlen]
    | none =>
      simp only [hidx]
      rw [h1, h2]
      exact ⟨hout, hlen⟩
  · rw [h1, h2]
    exact ⟨hout, hlen⟩
  · constructor
    · intro k hk
      rcases mem_mapKeys_insert hk with rfl | hk
      · exact brunch_key_good w (Or.inl rfl)
      · rw [h1] at hk
        exact hout k hk
    · simpa [h2] using hlen
  · constructor
    · intro k hk
      rcases mem_mapKeys_insert hk with rfl | hk
      · exact brunch_key_good w (Or.inr rfl)
      · rw [h1] at hk
        exact hout k hk
    · simpa [h2] using hlen
  · rw [h1, h2]
    exact ⟨hout, hlen⟩

theorem segStep_inv (w : NaiveDate) (st : ParseState) (line : String)
    (hout : ∀ k ∈ mapKeys st.out, GoodKey w k)
    (hlen : st.breakfast_found.length = 5) :
    (∀ k ∈ mapKeys (segStep w st line).out, GoodKey w k) ∧
    (segStep w st line).breakfast_found.length = 5 := by
  simp only [segStep]
  split_ifs with hc1 hc2 hc3 hc4 hc5
  · exact ⟨hout, hlen⟩
  · exact ⟨hout, hlen⟩
  · exact ⟨hout, hlen⟩
  · exact ⟨hout, hlen⟩
  · exact ⟨hout, hlen⟩
  · exact segContent_inv w st line hout hlen

theorem parse_fold_inv (w : NaiveDate) (lines : List String) :
    ∀ st, (∀ k ∈ mapKeys st.out, GoodKey w k) → st.breakfast_found.length = 5 →
      (∀ k ∈ mapKeys (lines.foldl (segStep w) st).out, GoodKey w k) ∧
      (lines.foldl (segStep w) st).breakfast_found.length = 5 := by
  induction lines with
  | nil => exact fun st hout hlen => ⟨hout, hlen⟩
  | cons line rest ih =>
    intro st hout hlen
    rw [List.foldl_cons]
    have h := segStep_inv w st line hout hlen
    exact ih _ h.1 h.2

theorem foldl_days_keys (w : NaiveDate) (period : String) (blocks : List (List String)) :
    ∀ (ds : List ℕ) (out : MenuMap),
      (∀ d ∈ ds, GoodKey w (format_date (addDays w d) ++ "-" ++ period)) →
      (∀ k ∈ mapKeys out, GoodKey w k) →
      ∀ k ∈ mapKeys (ds.foldl
        (fun o day =>
          match blocks[day]? with
          | some block =>
            mapInsert o (format_date (addDays w day) ++ "-" ++ period)
              (String.intercalate "\n" block)
          | none => o) out), GoodKey w k := by
  intro ds
  induction ds with
  | nil => exact fun out _ hout => hout
  | cons d ds' ih =>
    intro out hds hout
    rw [List.foldl_cons]
    refine ih _ (fun e he => hds e (List.mem_cons_of_mem d he)) ?_
    cases hb : blocks[d]? with
    | none => simpa [hb] using hout
    | some b =>
      simp only [hb]
      intro k hk
      rcases mem_mapKeys_insert hk with rfl | hk
      · exact hds d (List.mem_cons_self d ds')
      · exact hout k hk

theorem blockKeysFold_keys (w : NaiveDate) (period : String) (blocks : List (List String))
    (days : ℕ) (hdays : ∀ d, d < days → GoodKey w (format_date (addDays w d) ++ "-" ++ period))
    (out : MenuMap) (hout : ∀ k ∈ mapKeys out, GoodKey w k) :
    ∀ k ∈ mapKeys (blockKeysFold w period blocks days out), GoodKey w k := by
  exact foldl_days_keys w period blocks (List.range days) out
    (fun d hd => hdays d (List.mem_range.1 hd)) hout

theorem foldl_enum_keys (w : NaiveDate) (period : String) :
    ∀ (ps : List (ℕ × String)) (out : MenuMap),
      (∀ p ∈ ps, GoodKey w (format_date (addDays w p.1) ++ "-" ++ period)) →
      (∀ k ∈ mapKeys out, GoodKey w k) →
      ∀ k ∈ mapKeys (ps.foldl
        (fun o p => mapInsert o (format_date (addDays w p.1) ++ "-" ++ period) p.2) out),
        GoodKey w k := by
  intro ps
  induction ps with
  | nil => exact fun out _ hout => hout
  | cons p ps' ih =>
    intro out hps hout
    rw [List.foldl_cons]
    refine ih _ (fun q hq => hps q (List.mem_cons_of_mem p hq)) ?_
    intro k hk
    rcases mem_mapKeys_insert hk with rfl | hk
    · exact hps p (List.mem_cons_self p ps')
    · exact hout k hk

theorem fill_keys (w : NaiveDate) (lines : List String) (days : ℕ) (period : String)
    (hp : ∀ d, d < days → GoodKey w (format_date (addDays w d) ++ "-" ++ period))
    (out : MenuMap) (hout : ∀ k ∈ mapKeys out, GoodKey w k) :
    ∀ k ∈ mapKeys (fill_first_line_per_day lines w days period out), GoodKey w k := by
  rw [fill_eq_enum]
  refine foldl_enum_keys w period _ out ?_ hout
  rintro ⟨i, x⟩ hq
  obtain ⟨-, hi, -⟩ := List.mem_enumFrom hq
  have hlen : ((nonJunkTrimmed lines).take days).length ≤ days := by
    simp [List.length_take]
  exact hp i (by omega)

theorem lunch_key_good (w : NaiveDate) : ∀ d, d < 5 →
    GoodKey w (format_date (addDays w d) ++ "-" ++ "lunch") := by
  intro d hd
  exact ⟨d, "lunch", rfl, Or.inr (Or.inr (Or.inl ⟨rfl, by omega⟩))⟩

theorem dinner_key_good (w : NaiveDate) : ∀ d, d < 7 →
    GoodKey w (format_date (addDays w d) ++ "-" ++ "dinner") := by
  intro d hd
  exact ⟨d, "dinner", rfl, Or.inr (Or.inr (Or.inr ⟨rfl, by omega⟩))⟩

/-- C10: every key of `parse_weekly_menu text week_start` is a formatted date
plus period suffix, where the date is `week_start` plus a day offset and the
offset range matches the period: breakfast and lunch use offsets 0–4, brunch
only 5 and 6, dinner 0–6. -/
theorem claim_C10 (text : String) (w : NaiveDate) (k : String)
    (hk : k ∈ mapKeys (parse_weekly_menu text w)) : GoodKey w k := by
  simp only [parse_weekly_menu] at hk
  have hst := parse_fold_inv w (rustLines text)
    initState (by simp [initState, mapKeys]) (by simp [initState])
  set st := (rustLines text).foldl (segStep w) initState with hstdef
  by_cases h5 : (split_blocks st.lunch_lines 5).length = 5 <;>
    by_cases h7 : (split_blocks st.dinner_lines 7).length = 7
  · rw [if_pos h5, if_pos h7] at hk
    exact blockKeysFold_keys w "dinner" _ 7 (dinner_key_good w) _
      (blockKeysFold_keys w "lunch" _ 5 (lunch_key_good w) st.out hst.1) k hk
  · rw [if_pos h5, if_neg h7] at hk
    exact fill_keys w st.dinner_lines 7 "dinner" (dinner_key_good w) _
      (blockKeysFold_keys w "lunch" _ 5 (lunch_key_good w) st.out hst.1) k hk
  · rw [if_neg h5, if_pos h7] at hk
    exact blockKeysFold_keys w "dinner" _ 7 (dinner_key_good w) _
      (fill_keys w st.lunch_lines 5 "lunch" (lunch_key_good w) st.out hst.1) k hk
  · rw [if_neg h5, if_neg h7] at hk
    exact fill_keys w st.dinner_lines 7 "dinner" (dinner_key_good w) _
      (fill_keys w st.lunch_lines 5 "lunch" (lunch_key_good w) st.out hst.1) k hk

/-- C10 (witness): a concrete key of a parsed weekly map has the invariant
shape. -/
theorem claim_C10_witness :
    ("2026-02-14-brunch" ∈
      mapKeys (parse_weekly_menu "Saturday brunch\nEggs" ⟨2026, 2, 9⟩)) ∧
    GoodKey ⟨2026, 2, 9⟩ "2026-02-14-brunch" := by
  exact ⟨by decide,
    claim_C10 "Saturday brunch\nEggs" ⟨2026, 2, 9⟩ "2026-02-14-brunch" (by decide)⟩

/-! ### Claim C1 — the end-to-end example shape -/

theorem blockKeysFold5 (w : NaiveDate) (period : String)
    (B0 B1 B2 B3 B4 : List String) (out : MenuMap) :
    blockKeysFold w period [B0, B1, B2, B3, B4] 5 out =
      mapInsert (mapInsert (mapInsert (mapInsert (mapInsert out
        (format_date (addDays w 0) ++ "-" ++ period) (String.intercalate "\n" B0))
        (format_date (addDays w 1) ++ "-" ++ period) (String.intercalate "\n" B1))
        (format_date (addDays w 2) ++ "-" ++ period) (String.intercalate "\n" B2))
        (format_date (addDays w 3) ++ "-" ++ period) (String.intercalate "\n" B3))
        (format_date (addDays w 4) ++ "-" ++ period) (String.intercalate "\n" B4) := rfl

theorem blockKeysFold7 (w : NaiveDate) (period : String)
    (B0 B1 B2 B3 B4 B5 B6 : List String) (out : MenuMap) :
    blockKeysFold w period [B0, B1, B2, B3, B4, B5, B6] 7 out =
      mapInsert (mapInsert (mapInsert (mapInsert (mapInsert (mapInsert (mapInsert out
        (format_date (addDays w 0) ++ "-" ++ period) (String.intercalate "\n" B0))
        (format_date (addDays w 1) ++ "-" ++ period) (String.intercalate "\n" B1))
        (format_date (addDays w 2) ++ "-" ++ period) (String.intercalate "\n" B2))
        (format_date (addDays w 3) ++ "-" ++ period) (String.intercalate "\n" B3))
        (format_date (addDays w 4) ++ "-" ++ period) (String.intercalate "\n" B4))
        (format_date (addDays w 5) ++ "-" ++ period) (String.intercalate "\n" B5))
        (format_date (addDays w 6) ++ "-" ++ period) (String.intercalate "\n" B6) := rfl

/-- C1: for every input text of the end-to-end example shape — a breakfast
header, 5 distinct content breakfast lines, a brunch header followed by a
content line, a second brunch header followed by a content line, a lunch
header followed by 5 two-line indented day-blocks, and a dinner header
followed by 7 two-line indented day-blocks — parsing with week_start
2026-02-09 yields exactly the 19 expected keys, the two brunch keys mapped
to the fixed text "Brunch buffet available", and no other entries. -/
theorem claim_C1 (text : String)
    (bH b0 b1 b2 b3 b4 sH s0 sH2 s1 lH : String)
    (l0 l1 l2 l3 l4 l5 l6 l7 l8 l9 : String)
    (dH d0 d1 d2 d3 d4 d5 d6 d7 d8 d9 d10 d11 d12 d13 : String)
    (hlines : rustLines text = [bH, b0, b1, b2, b3, b4, sH, s0, sH2, s1, lH, l0, l1, l2, l3, l4, l5, l6, l7, l8, l9, dH, d0, d1, d2, d3, d4, d5, d6, d7, d8, d9, d10, d11, d12, d13])
    (hbH : BreakfastHeader bH)
    (hb0 : ContentLine b0)
    (hb1 : ContentLine b1)
    (hb2 : ContentLine b2)
    (hb3 : ContentLine b3)
    (hb4 : ContentLine b4)
    (_hdist : [b0, b1, b2, b3, b4].Nodup)
    (hsH : BrunchHeader sH) (hs0 : ContentLine s0)
    (hsH2 : BrunchHeader sH2) (hs1 : ContentLine s1)
    (hlH : LunchHeader lH)
    (hl0 : ContentLine l0)
    (hl1 : ContentLine l1)
    (hl2 : ContentLine l2)
    (hl3 : ContentLine l3)
    (hl4 : ContentLine l4)
    (hl5 : ContentLine l5)
    (hl6 : ContentLine l6)
    (hl7 : ContentLine l7)
    (hl8 : ContentLine l8)
    (hl9 : ContentLine l9)
    (hspl0 : startsWithSpace l0 = true)
    (hspl1 : startsWithSpace l1 = false)
    (hspl2 : startsWithSpace l2 = true)
    (hspl3 : startsWithSpace l3 = false)
    (hspl4 : startsWithSpace l4 = true)
    (hspl5 : startsWithSpace l5 = false)
    (hspl6 : startsWithSpace l6 = true)
    (hspl7 : startsWithSpace l7 = false)
    (hspl8 : startsWithSpace l8 = true)
    (hspl9 : startsWithSpace l9 = false)
    (hdH : DinnerHeader dH)
    (hd0 : ContentLine d0)
    (hd1 : ContentLine d1)
    (hd2 : ContentLine d2)
    (hd3 : ContentLine d3)
    (hd4 : ContentLine d4)
    (hd5 : ContentLine d5)
    (hd6 : ContentLine d6)
    (hd7 : ContentLine d7)
    (hd8 : ContentLine d8)
    (hd9 : ContentLine d9)
    (hd10 : ContentLine d10)
    (hd11 : ContentLine d11)
    (hd12 : ContentLine d12)
    (hd13 : ContentLine d13)
    (hspd0 : startsWithSpace d0 = true)
    (hspd1 : startsWithSpace d1 = false)
    (hspd2 : startsWithSpace d2 = true)
    (hspd3 : startsWithSpace d3 = false)
    (hspd4 : startsWithSpace d4 = true)
    (hspd5 : startsWithSpace d5 = false)
    (hspd6 : startsWithSpace d6 = true)
    (hspd7 : startsWithSpace d7 = false)
    (hspd8 : startsWithSpace d8 = true)
    (hspd9 : startsWithSpace d9 = false)
    (hspd10 : startsWithSpace d10 = true)
    (hspd11 : startsWithSpace d11 = false)
    (hspd12 : startsWithSpace d12 = true)
    (hspd13 : startsWithSpace d13 = false)
    :
    mapKeys (parse_weekly_menu text ⟨2026, 2, 9⟩) =
      ["2026-02-09-breakfast",
       "2026-02-10-breakfast",
       "2026-02-11-breakfast",
       "2026-02-12-breakfast",
       "2026-02-13-breakfast",
       "2026-02-14-brunch",
       "2026-02-15-brunch",
       "2026-02-09-lunch",
       "2026-02-10-lunch",
       "2026-02-11-lunch",
       "2026-02-12-lunch",
       "2026-02-13-lunch",
       "2026-02-09-dinner",
       "2026-02-10-dinner",
       "2026-02-11-dinner",
       "2026-02-12-dinner",
       "2026-02-13-dinner",
       "2026-02-14-dinner",
       "2026-02-15-dinner"] ∧
    mapGet (parse_weekly_menu text ⟨2026, 2, 9⟩) "2026-02-14-brunch" =
      some "Brunch buffet available" ∧
    mapGet (parse_weekly_menu text ⟨2026, 2, 9⟩) "2026-02-15-brunch" =
      some "Brunch buffet available" := by
  have hneb0 := rustTrim_ne_nil_of_not_junk hb0.2.2.2.2
  have hneb1 := rustTrim_ne_nil_of_not_junk hb1.2.2.2.2
  have hneb2 := rustTrim_ne_nil_of_not_junk hb2.2.2.2.2
  have hneb3 := rustTrim_ne_nil_of_not_junk hb3.2.2.2.2
  have hneb4 := rustTrim_ne_nil_of_not_junk hb4.2.2.2.2
  simp only [ContentLine, BreakfastHeader, BrunchHeader, LunchHeader, DinnerHeader,
    kwCount, lowTrim, junkLine] at hbH hsH hsH2 hlH hdH hb0 hb1 hb2 hb3 hb4 hs0 hs1 hl0 hl1 hl2 hl3 hl4 hl5 hl6 hl7 hl8 hl9 hd0 hd1 hd2 hd3 hd4 hd5 hd6 hd7 hd8 hd9 hd10 hd11 hd12 hd13
  have hsH' := Nat.not_le.2 hsH.1
  have hsH2' := Nat.not_le.2 hsH2.1
  have hlH1' := Nat.not_le.2 hlH.1
  have hdH1' := Nat.not_le.2 hdH.1
  have hdH3' := Nat.not_le.2 hdH.2.2.1
  have hfi0 : List.findIdx? (fun b => !b) [false, false, false, false, false] = some 0 := by decide
  have hfi1 : List.findIdx? (fun b => !b) [true, false, false, false, false] = some 1 := by decide
  have hfi2 : List.findIdx? (fun b => !b) [true, true, false, false, false] = some 2 := by decide
  have hfi3 : List.findIdx? (fun b => !b) [true, true, true, false, false] = some 3 := by decide
  have hfi4 : List.findIdx? (fun b => !b) [true, true, true, true, false] = some 4 := by decide
  have hset0 : [false, false, false, false, false].set 0 true = [true, false, false, false, false] := by decide
  have hset1 : [true, false, false, false, false].set 1 true = [true, true, false, false, false] := by decide
  have hset2 : [true, true, false, false, false].set 2 true = [true, true, true, false, false] := by decide
  have hset3 : [true, true, true, false, false].set 3 true = [true, true, true, true, false] := by decide
  have hset4 : [true, true, true, true, false].set 4 true = [true, true, true, true, true] := by decide
  have hkb0 : format_date (addDays (⟨2026, 2, 9⟩ : NaiveDate) 0) ++ "-breakfast" =
      "2026-02-09-breakfast" := by decide
  have hkb1 : format_date (addDays (⟨2026, 2, 9⟩ : NaiveDate) 1) ++ "-breakfast" =
      "2026-02-10-breakfast" := by decide
  have hkb2 : format_date (addDays (⟨2026, 2, 9⟩ : NaiveDate) 2) ++ "-breakfast" =
      "2026-02-11-breakfast" := by decide
  have hkb3 : format_date (addDays (⟨2026, 2, 9⟩ : NaiveDate) 3) ++ "-breakfast" =
      "2026-02-12-breakfast" := by decide
  have hkb4 : format_date (addDays (⟨2026, 2, 9⟩ : NaiveDate) 4) ++ "-breakfast" =
      "2026-02-13-breakfast" := by decide
  have hksat : format_date (addDays (⟨2026, 2, 9⟩ : NaiveDate) 5) ++ "-brunch" =
      "2026-02-14-brunch" := by decide
  have hksun : format_date (addDays (⟨2026, 2, 9⟩ : NaiveDate) 6) ++ "-brunch" =
      "2026-02-15-brunch" := by decide
  have hkl0 : format_date (addDays (⟨2026, 2, 9⟩ : NaiveDate) 0) ++ "-" ++ "lunch" =
      "2026-02-09-lunch" := by decide
  have hkl1 : format_date (addDays (⟨2026, 2, 9⟩ : NaiveDate) 1) ++ "-" ++ "lunch" =
      "2026-02-10-lunch" := by decide
  have hkl2 : format_date (addDays (⟨2026, 2, 9⟩ : NaiveDate) 2) ++ "-" ++ "lunch" =
      "2026-02-11-lunch" := by decide
  have hkl3 : format_date (addDays (⟨2026, 2, 9⟩ : NaiveDate) 3) ++ "-" ++ "lunch" =
      "2026-02-12-lunch" := by decide
  have hkl4 : format_date (addDays (⟨2026, 2, 9⟩ : NaiveDate) 4) ++ "-" ++ "lunch" =
      "2026-02-13-lunch" := by decide
  have hkd0 : format_date (addDays (⟨2026, 2, 9⟩ : NaiveDate) 0) ++ "-" ++ "dinner" =
      "2026-02-09-dinner" := by decide
  have hkd1 : format_date (addDays (⟨2026, 2, 9⟩ : NaiveDate) 1) ++ "-" ++ "dinner" =
      "2026-02-10-dinner" := by decide
  have hkd2 : format_date (addDays (⟨2026, 2, 9⟩ : NaiveDate) 2) ++ "-" ++ "dinner" =
      "2026-02-11-dinner" := by decide
  have hkd3 : format_date (addDays (⟨2026, 2, 9⟩ : NaiveDate) 3) ++ "-" ++ "dinner" =
      "2026-02-12-dinner" := by decide
  have hkd4 : format_date (addDays (⟨2026, 2, 9⟩ : NaiveDate) 4) ++ "-" ++ "dinner" =
      "2026-02-13-dinner" := by decide
  have hkd5 : format_date (addDays (⟨2026, 2, 9⟩ : NaiveDate) 5) ++ "-" ++ "dinner" =
      "2026-02-14-dinner" := by decide
  have hkd6 : format_date (addDays (⟨2026, 2, 9⟩ : NaiveDate) 6) ++ "-" ++ "dinner" =
      "2026-02-15-dinner" := by decide
  have hfold : List.foldl (segStep (⟨2026, 2, 9⟩ : NaiveDate)) initState
      [bH, b0, b1, b2, b3, b4, sH, s0, sH2, s1, lH, l0, l1, l2, l3, l4, l5, l6, l7, l8, l9, dH, d0, d1, d2, d3, d4, d5, d6, d7, d8, d9, d10, d11, d12, d13] =
      ⟨false, false, false, false, true, [true, true, true, true, true], true, true,
       [l0, l1, l2, l3, l4, l5, l6, l7, l8, l9], [d0, d1, d2, d3, d4, d5, d6, d7, d8, d9, d10, d11, d12, d13],
       (mapInsert (mapInsert (mapInsert (mapInsert (mapInsert (mapInsert (mapInsert ([] : MenuMap)
        "2026-02-09-breakfast" (rustTrim b0))
        "2026-02-10-breakfast" (rustTrim b1))
        "2026-02-11-breakfast" (rustTrim b2))
        "2026-02-12-breakfast" (rustTrim b3))
        "2026-02-13-breakfast" (rustTrim b4))
        "2026-02-14-brunch" "Brunch buffet available")
        "2026-02-15-brunch" "Brunch buffet available")⟩ := by
    simp [List.foldl_cons, List.foldl_nil, segStep, segContent, bufferPush, initState,
      hbH, hsH, hsH2, hlH, hdH, hb0, hb1, hb2, hb3, hb4, hs0, hs1, hl0, hl1, hl2, hl3, hl4, hl5, hl6, hl7, hl8, hl9, hd0, hd1, hd2, hd3, hd4, hd5, hd6, hd7, hd8, hd9, hd10, hd11, hd12, hd13, hsH', hsH2', hlH1', hdH1', hdH3', hneb0, hneb1, hneb2, hneb3, hneb4, hfi0, hfi1, hfi2, hfi3, hfi4, hset0, hset1, hset2, hset3, hset4, hkb0, hkb1, hkb2, hkb3, hkb4, hksat, hksun]
  have hsplitL : split_blocks [l0, l1, l2, l3, l4, l5, l6, l7, l8, l9] 5 =
      [[rustTrim l0, rustTrim l1], [rustTrim l2, rustTrim l3], [rustTrim l4, rustTrim l5], [rustTrim l6, rustTrim l7], [rustTrim l8, rustTrim l9]] := by
    simp [split_blocks, splitStep, pushLast,
      hl0, hl1, hl2, hl3, hl4, hl5, hl6, hl7, hl8, hl9, hspl0, hspl1, hspl2, hspl3, hspl4, hspl5, hspl6, hspl7, hspl8, hspl9]
  have hsplitD : split_blocks [d0, d1, d2, d3, d4, d5, d6, d7, d8, d9, d10, d11, d12, d13] 7 =
      [[rustTrim d0, rustTrim d1], [rustTrim d2, rustTrim d3], [rustTrim d4, rustTrim d5], [rustTrim d6, rustTrim d7], [rustTrim d8, rustTrim d9], [rustTrim d10, rustTrim d11], [rustTrim d12, rustTrim d13]] := by
    simp [split_blocks, splitStep, pushLast,
      hd0, hd1, hd2, hd3, hd4, hd5, hd6, hd7, hd8, hd9, hd10, hd11, hd12, hd13, hspd0, hspd1, hspd2, hspd3, hspd4, hspd5, hspd6, hspd7, hspd8, hspd9, hspd10, hspd11, hspd12, hspd13]
  have hp : parse_weekly_menu text ⟨2026, 2, 9⟩ =
      (mapInsert (mapInsert (mapInsert (mapInsert (mapInsert (mapInsert (mapInsert (mapInsert (mapInsert (mapInsert (mapInsert (mapInsert (mapInsert (mapInsert (mapInsert (mapInsert (mapInsert (mapInsert (mapInsert ([] : MenuMap)
        "2026-02-09-breakfast" (rustTrim b0))
        "2026-02-10-breakfast" (rustTrim b1))
        "2026-02-11-breakfast" (rustTrim b2))
        "2026-02-12-breakfast" (rustTrim b3))
        "2026-02-13-breakfast" (rustTrim b4))
        "2026-02-14-brunch" "Brunch buffet available")
        "2026-02-15-brunch" "Brunch buffet available")
        "2026-02-09-lunch" (String.intercalate "\n" [rustTrim l0, rustTrim l1]))
        "2026-02-10-lunch" (String.intercalate "\n" [rustTrim l2, rustTrim l3]))
        "2026-02-11-lunch" (String.intercalate "\n" [rustTrim l4, rustTrim l5]))
        "2026-02-12-lunch" (String.intercalate "\n" [rustTrim l6, rustTrim l7]))
        "2026-02-13-lunch" (String.intercalate "\n" [rustTrim l8, rustTrim l9]))
        "2026-02-09-dinner" (String.intercalate "\n" [rustTrim d0, rustTrim d1]))
        "2026-02-10-dinner" (String.intercalate "\n" [rustTrim d2, rustTrim d3]))
        "2026-02-11-dinner" (String.intercalate "\n" [rustTrim d4, rustTrim d5]))
        "2026-02-12-dinner" (String.intercalate "\n" [rustTrim d6, rustTrim d7]))
        "2026-02-13-dinner" (String.intercalate "\n" [rustTrim d8, rustTrim d9]))
        "2026-02-14-dinner" (String.intercalate "\n" [rustTrim d10, rustTrim d11]))
        "2026-02-15-dinner" (String.intercalate "\n" [rustTrim d12, rustTrim d13])) := by
    simp only [parse_weekly_menu]
    rw [hlines, hfold]
    simp [hsplitL, hsplitD, blockKeysFold5, blockKeysFold7,
      hkl0, hkl1, hkl2, hkl3, hkl4, hkd0, hkd1, hkd2, hkd3, hkd4, hkd5, hkd6]
  refine ⟨?_, ?_, ?_⟩
  · rw [hp]
    simp [mapKeys_insert, mapKeys_nil]
  · rw [hp]
    simp [mapGet_insert_ne, mapGet_insert_self]
  · rw [hp]
    simp [mapGet_insert_ne, mapGet_insert_self]


/-- C1 (witness): a concrete text of the example shape produces exactly the
19 keys. -/
theorem claim_C1_witness :
    rustLines "Breakfast Breakfast Breakfast Breakfast Breakfast\nPorridgeA\nPorridgeB\nPorridgeC\nPorridgeD\nPorridgeE\nSaturday Brunch\nEggs Royale\nSunday Brunch\nPancakes\nLunch Lunch Lunch Lunch Lunch\n SoupA\nRiceA\n SoupB\nRiceB\n SoupC\nRiceC\n SoupD\nRiceD\n SoupE\nRiceE\nDinner Dinner Dinner\n StewA\nPastaA\n StewB\nPastaB\n StewC\nPastaC\n StewD\nPastaD\n StewE\nPastaE\n StewF\nPastaF\n StewG\nPastaG" =
      ["Breakfast Breakfast Breakfast Breakfast Breakfast", "PorridgeA", "PorridgeB", "PorridgeC", "PorridgeD", "PorridgeE", "Saturday Brunch", "Eggs Royale", "Sunday Brunch", "Pancakes", "Lunch Lunch Lunch Lunch Lunch", " SoupA", "RiceA", " SoupB", "RiceB", " SoupC", "RiceC", " SoupD", "RiceD", " SoupE", "RiceE", "Dinner Dinner Dinner", " StewA", "PastaA", " StewB", "PastaB", " StewC", "PastaC", " StewD", "PastaD", " StewE", "PastaE", " StewF", "PastaF", " StewG", "PastaG"] ∧
    (mapKeys (parse_weekly_menu "Breakfast Breakfast Breakfast Breakfast Breakfast\nPorridgeA\nPorridgeB\nPorridgeC\nPorridgeD\nPorridgeE\nSaturday Brunch\nEggs Royale\nSunday Brunch\nPancakes\nLunch Lunch Lunch Lunch Lunch\n SoupA\nRiceA\n SoupB\nRiceB\n SoupC\nRiceC\n SoupD\nRiceD\n SoupE\nRiceE\nDinner Dinner Dinner\n StewA\nPastaA\n StewB\nPastaB\n StewC\nPastaC\n StewD\nPastaD\n StewE\nPastaE\n StewF\nPastaF\n StewG\nPastaG" ⟨2026, 2, 9⟩) =
      ["2026-02-09-breakfast",
       "2026-02-10-breakfast",
       "2026-02-11-breakfast",
       "2026-02-12-breakfast",
       "2026-02-13-breakfast",
       "2026-02-14-brunch",
       "2026-02-15-brunch",
       "2026-02-09-lunch",
       "2026-02-10-lunch",
       "2026-02-11-lunch",
       "2026-02-12-lunch",
       "2026-02-13-lunch",
       "2026-02-09-dinner",
       "2026-02-10-dinner",
       "2026-02-11-dinner",
       "2026-02-12-dinner",
       "2026-02-13-dinner",
       "2026-02-14-dinner",
       "2026-02-15-dinner"] ∧
    mapGet (parse_weekly_menu "Breakfast Breakfast Breakfast Breakfast Breakfast\nPorridgeA\nPorridgeB\nPorridgeC\nPorridgeD\nPorridgeE\nSaturday Brunch\nEggs Royale\nSunday Brunch\nPancakes\nLunch Lunch Lunch Lunch Lunch\n SoupA\nRiceA\n SoupB\nRiceB\n SoupC\nRiceC\n SoupD\nRiceD\n SoupE\nRiceE\nDinner Dinner Dinner\n StewA\nPastaA\n StewB\nPastaB\n StewC\nPastaC\n StewD\nPastaD\n StewE\nPastaE\n StewF\nPastaF\n StewG\nPastaG" ⟨2026, 2, 9⟩) "2026-02-14-brunch" =
      some "Brunch buffet available" ∧
    mapGet (parse_weekly_menu "Breakfast Breakfast Breakfast Breakfast Breakfast\nPorridgeA\nPorridgeB\nPorridgeC\nPorridgeD\nPorridgeE\nSaturday Brunch\nEggs Royale\nSunday Brunch\nPancakes\nLunch Lunch Lunch Lunch Lunch\n SoupA\nRiceA\n SoupB\nRiceB\n SoupC\nRiceC\n SoupD\nRiceD\n SoupE\nRiceE\nDinner Dinner Dinner\n StewA\nPastaA\n StewB\nPastaB\n StewC\nPastaC\n StewD\nPastaD\n StewE\nPastaE\n StewF\nPastaF\n StewG\nPastaG" ⟨2026, 2, 9⟩) "2026-02-15-brunch" =
      some "Brunch buffet available") := by
  refine ⟨by decide, ?_⟩
  exact claim_C1 "Breakfast Breakfast Breakfast Breakfast Breakfast\nPorridgeA\nPorridgeB\nPorridgeC\nPorridgeD\nPorridgeE\nSaturday Brunch\nEggs Royale\nSunday Brunch\nPancakes\nLunch Lunch Lunch Lunch Lunch\n SoupA\nRiceA\n SoupB\nRiceB\n SoupC\nRiceC\n SoupD\nRiceD\n SoupE\nRiceE\nDinner Dinner Dinner\n StewA\nPastaA\n StewB\nPastaB\n StewC\nPastaC\n StewD\nPastaD\n StewE\nPastaE\n StewF\nPastaF\n StewG\nPastaG"
    "Breakfast Breakfast Breakfast Breakfast Breakfast" "PorridgeA" "PorridgeB" "PorridgeC" "PorridgeD" "PorridgeE" "Saturday Brunch" "Eggs Royale" "Sunday Brunch" "Pancakes" "Lunch Lunch Lunch Lunch Lunch"
    " SoupA" "RiceA" " SoupB" "RiceB" " SoupC" "RiceC" " SoupD" "RiceD" " SoupE" "RiceE"
    "Dinner Dinner Dinner" " StewA" "PastaA" " StewB" "PastaB" " StewC" "PastaC" " StewD" "PastaD" " StewE" "PastaE" " StewF" "PastaF" " StewG" "PastaG"
    (by decide)  -- hlines
    (by decide)  -- breakfast header
    (by decide) (by decide) (by decide) (by decide) (by decide)  -- breakfast lines
    (by decide)  -- distinct
    (by decide) (by decide) (by decide) (by decide)  -- brunch headers and lines
    (by decide)  -- lunch header
    (by decide) (by decide) (by decide) (by decide) (by decide) (by decide) (by decide) (by decide) (by decide) (by decide)  -- lunch lines
    (by decide) (by decide) (by decide) (by decide) (by decide) (by decide) (by decide) (by decide) (by decide) (by decide)  -- lunch indentation
    (by decide)  -- dinner header
    (by decide) (by decide) (by decide) (by decide) (by decide) (by decide) (by decide) (by decide) (by decide) (by decide) (by decide) (by decide) (by decide) (by decide)
    (by decide) (by decide) (by decide) (by decide) (by decide) (by decide) (by decide) (by decide) (by decide) (by decide) (by decide) (by decide) (by decide) (by decide)


end Cranbrook
